import Mathlib

/-!
# Fivox: event-to-voxel sampling, Livre data source

A shallow embedding of `fivox/livre/dataSource.cpp` and
`fivox/frequencyFunctor.h`.

Conventions of the embedding:

* `float` values are modelled by rationals (`ℚ`): halving, doubling and
  `max` are exact on binary floats away from overflow and underflow; the exit
  test of the halving loop multiplies and converts in single precision
  (`roundToFloat`, `FloatValue`); the remaining operations are idealised;
* `uint32_t` / `size_t` values are natural numbers, reduced `% 2 ^ 32` or
  `% 2 ^ 64` wherever the C++ code can wrap;
* C++ exceptions are values of `Thrown` inside `Except`;
* operations whose C++ meaning is undefined (a shift by 32 or more, a
  negative shift count, a float-to-unsigned conversion out of range, a signed
  overflow) or whose float result is not finite (a division by zero) yield
  `none`.
-/

namespace Fivox

/-! ## Vectors and boxes -/

/-- Three `float` components (`vmml::Vector3f`). -/
structure Vector3f where
  x : ℚ
  y : ℚ
  z : ℚ
deriving DecidableEq

/-- Three `uint32_t` components (`vmml::Vector3ui`). -/
structure Vector3ui where
  x : Nat
  y : Nat
  z : Nat
deriving DecidableEq, Repr

/-- Two `uint32_t` components (`vmml::Vector2ui`); a frame range is
`[x, y)`-indexed as `frameRange[0]`, `frameRange[1]`. -/
structure Vector2ui where
  x : Nat
  y : Nat
deriving DecidableEq, Repr

namespace Vector3f

/-- Component-wise sum. -/
def add (a b : Vector3f) : Vector3f := ⟨a.x + b.x, a.y + b.y, a.z + b.z⟩

/-- Component-wise difference. -/
def sub (a b : Vector3f) : Vector3f := ⟨a.x - b.x, a.y - b.y, a.z - b.z⟩

/-- Component-wise product. -/
def mul (a b : Vector3f) : Vector3f := ⟨a.x * b.x, a.y * b.y, a.z * b.z⟩

/-- Component-wise quotient. -/
def div (a b : Vector3f) : Vector3f := ⟨a.x / b.x, a.y / b.y, a.z / b.z⟩

/-- Division of every component by one scalar. -/
def divScalar (a : Vector3f) (s : ℚ) : Vector3f := ⟨a.x / s, a.y / s, a.z / s⟩

/-- Negation of every component. -/
def neg (a : Vector3f) : Vector3f := ⟨-a.x, -a.y, -a.z⟩

/-- The exact product of the three components; the `float` value that
`vector::product` returns is `floatProduct`. -/
def product (a : Vector3f) : ℚ := a.x * a.y * a.z

/-- Largest component (`vector::find_max`). -/
def find_max (a : Vector3f) : ℚ := max a.x (max a.y a.z)

/-- The vector with the same value in every component. -/
def splat (s : ℚ) : Vector3f := ⟨s, s, s⟩

end Vector3f

/-- Conversion `Vector3f( Vector3ui )`. -/
def Vector3ui.toFloat (v : Vector3ui) : Vector3f := ⟨v.x, v.y, v.z⟩

/-- Axis-aligned box given by its two corners (`vmml::AABBf`). -/
structure AABBf where
  min : Vector3f
  max : Vector3f
deriving DecidableEq

/-- Extent of the box, `AABB::getSize`. -/
def AABBf.getSize (b : AABBf) : Vector3f := b.max.sub b.min

/-- Center of the box, `AABB::getCenter`. -/
def AABBf.getCenter (b : AABBf) : Vector3f := (b.min.add b.max).divScalar 2

/-! ## Volume information -/

/-- The part of `vmml::Matrix4f` the data source writes: the uniform scale on
the diagonal and the translation column. -/
structure Transform where
  scale : Vector3f
  translation : Vector3f
deriving DecidableEq

/-- The fields of `livre::VolumeInformation` the data source reads or
writes. -/
structure VolumeInformation where
  meterToDataUnitRatio : ℚ
  description : String
  voxels : Vector3ui
  maximumBlockSize : Vector3ui
  overlap : Vector3ui
  frameRange : Vector2ui
  dataToLivreTransform : Transform
  resolution : Vector3f
  worldSize : Vector3f
  rootNodeDepth : Nat
  compCount : Nat
  bytesPerVoxel : Nat
deriving DecidableEq

/-! ## `DataSource::Impl::update` -/

/-- Embedding of `DataSource::Impl::update`: `frameRange` is what
`loader->getFrameRange()` reports; the result is the returned flag and the
volume information after the call. -/
def Impl.update (frameRange : Vector2ui) (info : VolumeInformation) :
    Bool × VolumeInformation :=
  if info.frameRange = frameRange then
    (false, info)
  else
    let info1 :=
      if frameRange.y > 0 then { info with frameRange := frameRange } else info
    (true, info1)

/-! ## Events and the frequency functor -/

/-- One event: a position and a value (`fivox::Event`). -/
structure Event where
  position : Vector3f
  value : ℚ
deriving DecidableEq

/-- The event source as the functor sees it: the answer of `findEvents` for
a region. The class itself is not part of the sources at hand, so its
behaviour is a parameter. -/
structure EventSource where
  findEvents : AABBf → List Event

/-- Containment test of the bounding-box query. -/
def Event.inRegion (r : AABBf) (e : Event) : Bool :=
  decide (r.min.x ≤ e.position.x ∧ e.position.x ≤ r.max.x ∧
          r.min.y ≤ e.position.y ∧ e.position.y ≤ r.max.y ∧
          r.min.z ≤ e.position.z ∧ e.position.z ≤ r.max.z)

/-- Modelled from the spec: the event store of §4.1, whose class
`EventSource` is missing from the sources; `findEvents(region)` answers the
bounding-box range query over the stored events, in storage order. -/
def EventSource.ofEvents (events : List Event) : EventSource :=
  ⟨fun region => events.filter (Event.inRegion region)⟩

/-- Saturating clamp of `v` into `[lo, hi]`. -/
def clamp (v lo hi : ℚ) : ℚ := max lo (min v hi)

/-- Modelled from the spec: the range normalizer of §4.3, standing for the
member `_scale` of the base class `EventFunctor`, which is missing from the
sources: `clamp((raw - inputMin) / (inputMax - inputMin), 0, 1) *
outputTypeMax`. -/
def scale (inputMin inputMax outputTypeMax raw : ℚ) : ℚ :=
  clamp ((raw - inputMin) / (inputMax - inputMin)) 0 1 * outputTypeMax

/-- A frequency functor: the attached source (`Super::_source`, possibly
null) and the scale step (`Super::_scale`). -/
structure FrequencyFunctor where
  source : Option EventSource
  scale : ℚ → ℚ

/-- The query region built by `FrequencyFunctor::operator()` for a voxel
center and spacing (three components, as for `itk::Image< T, 3 >`). -/
def FrequencyFunctor.region (itkPoint itkSpacing : Vector3f) : AABBf :=
  let point : Vector3f := ⟨itkPoint.x, itkPoint.y, itkPoint.z⟩
  let spacing_2 : Vector3f :=
    ⟨itkSpacing.x * (1 / 2), itkSpacing.y * (1 / 2), itkSpacing.z * (1 / 2)⟩
  ⟨point.sub spacing_2, point.add spacing_2⟩

/-- The reduction loop of `FrequencyFunctor::operator()`:
`sum = 0; for event in events: sum = max( sum, event.value )`. -/
def FrequencyFunctor.reduce (events : List Event) : ℚ :=
  events.foldl (fun sum event => max sum event.value) 0

/-- The value `FrequencyFunctor::operator()` hands to `_scale` when a source
is attached. -/
def FrequencyFunctor.rawValue (src : EventSource)
    (itkPoint itkSpacing : Vector3f) : ℚ :=
  FrequencyFunctor.reduce
    (src.findEvents (FrequencyFunctor.region itkPoint itkSpacing))

/-- Embedding of `FrequencyFunctor::operator()`. -/
def FrequencyFunctor.call (f : FrequencyFunctor)
    (itkPoint itkSpacing : Vector3f) : ℚ :=
  match f.source with
  | none => 0
  | some src => f.scale (FrequencyFunctor.rawValue src itkPoint itkSpacing)

/-- A frequency functor over `src` with the normalizer of the spec. -/
def FrequencyFunctor.normalized (src : EventSource)
    (inputMin inputMax outputTypeMax : ℚ) : FrequencyFunctor :=
  ⟨some src, Fivox.scale inputMin inputMax outputTypeMax⟩

/-! ## Machine integers -/

/-- Reinterpretation of an integer as `int32_t` (twos-complement). -/
def wrapInt32 (i : Int) : Int := (i + 2 ^ 31) % 2 ^ 32 - 2 ^ 31

/-- The C++ expression `1 << n` on `int`: `2 ^ n` for `0 ≤ n ≤ 30`, the
twos-complement value `-2 ^ 31` for `n = 31`, no value (undefined) for a
negative count or a count of 32 or more. -/
def shiftLeftOne (n : Int) : Option Int :=
  if 0 ≤ n ∧ n < 31 then some (2 ^ n.toNat)
  else if n = 31 then some (-(2 ^ 31))
  else none

/-- Conversion of `std::ceil( q )` to `uint32_t`; no value when the ceiling
is negative or does not fit. -/
def ceilToUInt32 (q : ℚ) : Option Nat :=
  if 0 ≤ ⌈q⌉ ∧ ⌈q⌉ < 2 ^ 32 then some ⌈q⌉.toNat else none

/-! ## Single-precision arithmetic -/

/-- Rounding of a rational to the nearest integer, ties to the even one. -/
def roundHalfEven (t : ℚ) : ℤ :=
  if t - ⌊t⌋ < 1 / 2 then ⌊t⌋
  else if 1 / 2 < t - ⌊t⌋ then ⌊t⌋ + 1
  else if ⌊t⌋ % 2 = 0 then ⌊t⌋ else ⌊t⌋ + 1

/-- Number of halvings that bring `n` below 2, searched with `fuel`
steps. -/
def bitLengthAux : Nat → Nat → Nat
  | 0, _ => 0
  | fuel + 1, n => if n < 2 then 0 else bitLengthAux fuel (n / 2) + 1

/-- The integer part of the binary logarithm of a positive natural
number. -/
def floorLog2 (n : Nat) : Nat := bitLengthAux n n

/-- The binary exponent of a nonzero rational `q`: the integer `e` with
`2 ^ e ≤ |q| < 2 ^ (e + 1)`, found from the bit lengths of the numerator and
the denominator. -/
def binaryExponent (q : ℚ) : ℤ :=
  if q.den * 2 ^ floorLog2 q.num.natAbs ≤ q.num.natAbs * 2 ^ floorLog2 q.den then
    (floorLog2 q.num.natAbs : ℤ) - floorLog2 q.den
  else
    (floorLog2 q.num.natAbs : ℤ) - floorLog2 q.den - 1

/-- The exponent of the unit in the last place of a `float` near `q`: 24
significant bits, and `2 ^ (-149)` for the subnormal numbers. -/
def floatUlpExponent (q : ℚ) : ℤ := max (binaryExponent q - 23) (-149)

/-- The `float` nearest to `q` (IEEE 754 single precision, round to nearest,
ties to even), without the upper limit of the exponent range. -/
def roundToFloat (q : ℚ) : ℚ :=
  roundHalfEven (q / 2 ^ floatUlpExponent q) * 2 ^ floatUlpExponent q

/-- The value of a `float` expression: a finite number, an infinity or
not-a-number. -/
inductive FloatValue where
  | finite (q : ℚ)
  | posInf
  | negInf
  | nan
deriving DecidableEq

/-- The `float` result of an operation whose exact result is `q`: rounded,
and an infinity when the rounded value reaches `2 ^ 128`. -/
def FloatValue.ofRat (q : ℚ) : FloatValue :=
  if 2 ^ 128 ≤ roundToFloat q then .posInf
  else if roundToFloat q ≤ -(2 ^ 128) then .negInf
  else .finite (roundToFloat q)

/-- The `float` product of a `float` value and a finite `float`. -/
def FloatValue.mul (a : FloatValue) (b : ℚ) : FloatValue :=
  match a with
  | .finite p => FloatValue.ofRat (p * b)
  | .posInf => if 0 < b then .posInf else if b < 0 then .negInf else .nan
  | .negInf => if 0 < b then .negInf else if b < 0 then .posInf else .nan
  | .nan => .nan

/-- The comparison `a < b` of two `float` values; false when either is
not-a-number. -/
def FloatValue.lt (a b : FloatValue) : Bool :=
  match a, b with
  | .nan, _ => false
  | _, .nan => false
  | .finite p, .finite q => decide (p < q)
  | .finite _, .posInf => true
  | .finite _, .negInf => false
  | .posInf, _ => false
  | .negInf, .negInf => false
  | .negInf, _ => true

/-- The `float` value of `vector::product()` on three components: the
running product `(x * y) * z`, rounded after each multiplication. -/
def floatProduct (v : Vector3f) : FloatValue :=
  (FloatValue.ofRat (v.x * v.y)).mul v.z

/-! ## Geometry derivation of the `DataSource` constructor -/

/-- The constant `maxTextureSize` of the constructor. -/
def maxTextureSize : Nat := 2048

/-- Exit test of the halving loop: the `float` product of the candidate,
compared with `maxBlockByteSize` converted from `size_t` to `float`, and
the three components compared with `maxTextureSize` (2048, exact as a
`float`). -/
def fitsBlock (maxBlockByteSize : Nat) (blockResolution : Vector3f) : Bool :=
  (floatProduct blockResolution).lt (FloatValue.ofRat maxBlockByteSize) &&
    decide (blockResolution.x < maxTextureSize ∧
            blockResolution.y < maxTextureSize ∧
            blockResolution.z < maxTextureSize)

/-- The `while (true)` loop of the constructor, run for at most `fuel`
tests of the exit condition, from the candidate `blockResolution` and the
counter `depth`; the result is the pair on exit. The halving itself is exact,
as it is on floats that stay out of the subnormal range. (A float passes
below any positive bound in fewer than 300 halvings, so the `size_t` counter
cannot wrap.) -/
def halvingLoop (maxBlockByteSize : Nat) :
    Nat → Vector3f → Nat → Option (Vector3f × Nat)
  | 0, _, _ => none
  | fuel + 1, blockResolution, depth =>
    if fitsBlock maxBlockByteSize blockResolution then
      some (blockResolution, depth)
    else
      halvingLoop maxBlockByteSize fuel (blockResolution.divScalar 2) (depth + 1)

/-- The alignment `if (c > 8) c -= c % 8` applied to one block dimension. -/
def alignBlockDim (c : Nat) : Nat :=
  if c > 8 then c - c % 8 else c

/-- The aligned `blockDim` of the constructor from the candidate block
resolution. -/
def blockDimOf (blockResolution : Vector3f) : Option Vector3ui :=
  match ceilToUInt32 blockResolution.x, ceilToUInt32 blockResolution.y,
        ceilToUInt32 blockResolution.z with
  | some cx, some cy, some cz =>
    some ⟨alignBlockDim cx, alignBlockDim cy, alignBlockDim cz⟩
  | _, _, _ => none

/-- The local `treeQuotient`: `1 << depth` on `int`, converted to
`size_t`. -/
def treeQuotientOf (depth : Nat) : Option Nat :=
  (shiftLeftOne depth).map (fun q => (q % 2 ^ 64).toNat)

/-- The product `blockDim * treeQuotient` of `vmml::Vector3ui` by a scalar:
the scalar is converted to `uint32_t` and every component is multiplied
modulo `2 ^ 32`. -/
def totalTreeSizeOf (blockDim : Vector3ui) (treeQuotient : Nat) : Vector3ui :=
  let q := treeQuotient % 2 ^ 32
  ⟨(blockDim.x * q) % 2 ^ 32, (blockDim.y * q) % 2 ^ 32,
   (blockDim.z * q) % 2 ^ 32⟩

/-- What the image source reports to the constructor. -/
structure SourceGeometry where
  boundingBox : AABBf
  resolution : Vector3f
  sizeInMicrometer : Vector3f

/-- The data source after construction: the volume information, the
borders kept in `Impl::_borders` and the geometry of the image source. -/
structure DataSource where
  volumeInfo : VolumeInformation
  borders : Vector3f
  source : SourceGeometry

/-- The `DataSource` constructor. `info0` is the default-constructed
`_volumeInfo`, `fillRegularVolumeInfo` the Livre helper of that name (not
part of the sources; `none` is its `false` result), `fuel` bounds the
halving loop. The result is `none` when the loop does not exit within
`fuel`, when a step has no defined value, or when the constructor throws
"Cannot setup the regular tree". -/
def DataSource.new (src : SourceGeometry) (maxBlockByteSize : Nat)
    (description : String)
    (fillRegularVolumeInfo : VolumeInformation → Option VolumeInformation)
    (info0 : VolumeInformation) (fuel : Nat) : Option DataSource :=
  let info1 := { info0 with meterToDataUnitRatio := 1000000,
                            description := description }
  let bbox := src.boundingBox
  let resolution := src.resolution
  let fullResolution := src.sizeInMicrometer.mul resolution
  match halvingLoop maxBlockByteSize fuel fullResolution 0 with
  | none => none
  | some (blockResolution, depth) =>
    match blockDimOf blockResolution, treeQuotientOf depth with
    | none, _ => none
    | some _, none => none
    | some blockDim, some treeQuotient =>
      if resolution.x = 0 ∨ resolution.y = 0 ∨ resolution.z = 0 then none
      else
        let totalTreeSize := totalTreeSizeOf blockDim treeQuotient
        let borders := (totalTreeSize.toFloat.div resolution).sub bbox.getSize
        let info2 := { info1 with voxels := totalTreeSize,
                                  maximumBlockSize := blockDim }
        match fillRegularVolumeInfo info2 with
        | none => none
        | some info3 =>
          let maxDim :=
            max (borders.x + bbox.getSize.x)
              (max (borders.y + bbox.getSize.y) (borders.z + bbox.getSize.z))
          if maxDim = 0 then none
          else
            let scale := Vector3f.splat (1 / maxDim)
            let transform : Transform :=
              ⟨scale, bbox.getCenter.neg.mul scale⟩
            some { volumeInfo := { info3 with dataToLivreTransform := transform,
                                              resolution := resolution },
                   borders := borders, source := src }

/-- Embedding of `DataSource::update`. -/
def DataSource.update (frameRange : Vector2ui) (ds : DataSource) :
    Bool × DataSource :=
  let r := Impl.update frameRange ds.volumeInfo
  (r.1, { ds with volumeInfo := r.2 })

/-! ## Block sampling -/

/-- What can be thrown: a `std::exception` with its message, or anything
else. -/
inductive Thrown where
  | stdException (what : String)
  | other
deriving DecidableEq, Repr

/-- The node handed to `sample`: reference level, time step and relative
position (`livre::LODNode`). -/
structure LODNode where
  refLevel : Nat
  timeStep : Nat
  relativePosition : Vector3f

/-- Region size, spacing and origin that `sample` sets on the output
volume. -/
structure BlockSetup where
  size : Vector3ui
  spacing : Vector3f
  origin : Vector3f
deriving DecidableEq

/-- A block of voxel data (`livre::AllocMemoryUnit`): the copied buffer and
its byte size. -/
structure MemoryUnit (β : Type) where
  buffer : β
  size : Nat

/-- The mutable sampling pipeline behind `Impl` (event loader, image source
and scale filter, none of them part of the sources at hand), over a state
`σ`: `setTime` is `loader->setTime`, `update` is `source->Modified();
scaler.Update()` followed by reading the output buffer. Each may throw, and
each leaves a state behind also when it throws. -/
structure Pipeline (σ β : Type) where
  setTime : Nat → σ → Except Thrown Unit × σ
  update : BlockSetup → σ → Except Thrown β × σ

/-- The local `levelFromBottom`: `getDepth() - 1 - getRefLevel()` computed
on `uint32_t` and stored in an `int32_t`. -/
def levelFromBottom (rootNodeDepth refLevel : Nat) : Int :=
  wrapInt32 (((rootNodeDepth : Int) - 1 - (refLevel : Int)) % 2 ^ 32)

/-- The local `baseSpacing` of `sample`. -/
def baseSpacing (bbox : AABBf) (borders : Vector3f)
    (info : VolumeInformation) : Vector3f :=
  (bbox.getSize.add borders).div info.voxels.toFloat

/-- The spacing `sample` sets: the largest component of `baseSpacing` times
`spacingFactor`, on all three axes. -/
def sampleSpacing (bbox : AABBf) (borders : Vector3f)
    (info : VolumeInformation) (node : LODNode) : Option Vector3f :=
  if info.voxels.x = 0 ∨ info.voxels.y = 0 ∨ info.voxels.z = 0 then none
  else
    match shiftLeftOne (levelFromBottom info.rootNodeDepth node.refLevel) with
    | none => none
    | some shifted =>
      let spacingFactor : ℚ := shifted
      let spacing0 := (baseSpacing bbox borders info).find_max * spacingFactor
      some ⟨spacing0, spacing0, spacing0⟩

/-- The origin `sample` sets. -/
def sampleOrigin (bbox : AABBf) (borders : Vector3f) (node : LODNode) :
    Vector3f :=
  (bbox.min.sub (borders.divScalar 2)).add
    (node.relativePosition.mul (bbox.getSize.add borders))

/-- The byte size `sample` computes: the `int` product of the block
dimensions (no value on signed overflow), times `compCount` on 32 bits,
times `getBytesPerVoxel()` on 64 bits. -/
def sampleByteSize (info : VolumeInformation) : Option Nat :=
  let v0 := wrapInt32 info.maximumBlockSize.x
  let v1 := wrapInt32 info.maximumBlockSize.y
  let v2 := wrapInt32 info.maximumBlockSize.z
  if wrapInt32 (v0 * v1) = v0 * v1 ∧ wrapInt32 (v0 * v1 * v2) = v0 * v1 * v2 then
    let p32 := ((v0 * v1 * v2) % 2 ^ 32).toNat
    some ((((p32 * (info.compCount % 2 ^ 32)) % 2 ^ 32) * info.bytesPerVoxel)
            % 2 ^ 64)
  else none

/-- Embedding of `DataSource::Impl::sample` over the pipeline state `s`: the outcome
(the block or what was thrown) and the state left behind; `none` when a step
has no defined value. -/
def Impl.sample {σ β : Type} (p : Pipeline σ β) (bbox : AABBf)
    (borders : Vector3f) (node : LODNode) (info : VolumeInformation) (s : σ) :
    Option (Except Thrown (MemoryUnit β) × σ) :=
  match p.setTime node.timeStep s with
  | (.error e, s1) => some (.error e, s1)
  | (.ok _, s1) =>
    match sampleSpacing bbox borders info node, sampleByteSize info with
    | none, _ => none
    | some _, none => none
    | some spacing, some size =>
      let voxels := info.maximumBlockSize
      let setup : BlockSetup :=
        ⟨voxels, spacing, sampleOrigin bbox borders node⟩
      match p.update setup s1 with
      | (.error e, s2) => some (.error e, s2)
      | (.ok buffer, s2) => some (.ok ⟨buffer, size⟩, s2)

/-- Embedding of `DataSource::getData` over the pipeline state: the value returned to the
caller (`none` inside `ok` is the null `MemoryUnitPtr`; an `error` would be an
exception leaving `getData`), and the data source and pipeline state after
the call. -/
def DataSource.getData {σ β : Type} (p : Pipeline σ β) (ds : DataSource)
    (node : LODNode) (s : σ) :
    Option (Except Thrown (Option (MemoryUnit β)) × DataSource × σ) :=
  match Impl.sample p ds.source.boundingBox ds.borders node ds.volumeInfo s with
  | none => none
  | some (.ok block, s1) => some (.ok (some block), ds, s1)
  | some (.error (.stdException _), s1) => some (.ok none, ds, s1)
  | some (.error .other, s1) => some (.ok none, ds, s1)

/-! ## URI parameters (`fivox/uriHandler.cpp`) -/

/-- The parts of a `lunchbox::URI` the handler reads: the scheme, and the
query lookup `findQuery` (`none` is `queryEnd()`, `some v` the value stored
under the key, empty for a key given without a value). The class is not part
of the sources at hand. -/
structure URI where
  scheme : String
  findQuery : String → Option String

/-- The enumeration `VolumeType`. -/
inductive VolumeType where
  | compartments
  | somas
  | spikes
  | synapses
  | test
  | vsd
  | unknown
deriving DecidableEq, Repr

/-- The enumeration `FunctorType`. -/
inductive FunctorType where
  | density
  | field
  | frequency
  | lfp
  | unknown
deriving DecidableEq, Repr

/-- Modelled from the spec: the constant `LB_64MB` behind `_maxBlockSize`,
a macro of Lunchbox that is missing from the sources; the spec gives the
default byte budget as 64 MiB. -/
def _maxBlockSize : Nat := 64 * 1024 * 1024

/-- The default `_resolution` of the handler, in voxels per unit. -/
def _resolution : ℚ := 1

/-- The untyped `URIHandler::Impl::_get( param )`: the value stored under
the key, or the empty string. -/
def URIHandler._getString (uri : URI) (param : String) : String :=
  match uri.findQuery param with
  | none => ""
  | some second => second

/-- The typed `URIHandler::Impl::_get( param, defaultValue )`.
`lexical_cast` stands for `boost::lexical_cast< T >`, with `none` for a
thrown `bad_lexical_cast`, the one exception it raises. The result is what
leaves `_get`: a returned value under `ok`, an escaping exception under
`error`. -/
def URIHandler._get {T : Type} (lexical_cast : String → Option T) (uri : URI)
    (param : String) (defaultValue : T) : Except Thrown T :=
  let value := URIHandler._getString uri param
  if value = "" then
    .ok defaultValue
  else
    match lexical_cast value with
    | some parsed => .ok parsed
    | none => .ok defaultValue

/-- The `bool` specialization of `URIHandler::Impl::_get`: a parameter
present with no value is true. -/
def URIHandler._getBool (lexical_cast : String → Option Bool) (uri : URI)
    (param : String) (defaultValue : Bool) : Except Thrown Bool :=
  match uri.findQuery param with
  | none => .ok defaultValue
  | some second =>
    if second = "" then
      .ok true
    else
      match lexical_cast second with
      | some parsed => .ok parsed
      | none => .ok defaultValue

/-- Embedding of `URIHandler::Impl::showProgress`. -/
def URIHandler.showProgress (lexical_cast : String → Option Bool) (uri : URI) :
    Except Thrown Bool :=
  URIHandler._getBool lexical_cast uri "showProgress" false

/-- Embedding of `URIHandler::Impl::getType`. -/
def URIHandler.getType (uri : URI) : VolumeType :=
  if uri.scheme = "fivoxsomas" then .somas
  else if uri.scheme = "fivoxspikes" then .spikes
  else if uri.scheme = "fivoxsynapses" then .synapses
  else if uri.scheme = "fivoxvsd" then .vsd
  else if uri.scheme = "fivox" ∨ uri.scheme = "fivoxcompartments" then .compartments
  else if uri.scheme = "fivoxtest" then .test
  else .unknown

/-- Embedding of `URIHandler::Impl::getFunctorType`. -/
def URIHandler.getFunctorType (uri : URI) : FunctorType :=
  let functor := URIHandler._getString uri "functor"
  if functor = "density" then .density
  else if functor = "lfp" then .lfp
  else if functor = "field" then .field
  else if functor = "frequency" then .frequency
  else
    match URIHandler.getType uri with
    | .spikes => .frequency
    | .synapses => .density
    | .compartments => .field
    | .somas => .field
    | .vsd => .field
    | .test => .field
    | .unknown => .field

/-- Embedding of `URIHandler::Impl::getResolution`. -/
def URIHandler.getResolution (lexical_cast : String → Option ℚ) (uri : URI) :
    Except Thrown ℚ :=
  URIHandler._get lexical_cast uri "resolution"
    (if URIHandler.getFunctorType uri = .density then 1 / 16 else _resolution)

/-- Embedding of `URIHandler::Impl::getMaxBlockSize`. -/
def URIHandler.getMaxBlockSize (lexical_cast : String → Option Nat) (uri : URI) :
    Except Thrown Nat :=
  URIHandler._get lexical_cast uri "maxBlockSize" _maxBlockSize

/-! ## Concrete values used in the examples -/

/-- A volume information record with the given frame range and tree depth,
standing for a default-constructed `_volumeInfo`. -/
def VolumeInformation.initial (frameRange : Vector2ui) (rootNodeDepth : Nat) :
    VolumeInformation :=
  { meterToDataUnitRatio := 1, description := "", voxels := ⟨1, 1, 1⟩,
    maximumBlockSize := ⟨1, 1, 1⟩, overlap := ⟨0, 0, 0⟩, frameRange := frameRange,
    dataToLivreTransform := ⟨⟨1, 1, 1⟩, ⟨0, 0, 0⟩⟩, resolution := ⟨1, 1, 1⟩,
    worldSize := ⟨0, 0, 0⟩, rootNodeDepth := rootNodeDepth, compCount := 1,
    bytesPerVoxel := 1 }

/-- An image source whose bounding box is `[0, size]`, with the same
extent in micrometers and the resolution `r` on every axis. -/
def SourceGeometry.box (size : Vector3f) (r : ℚ) : SourceGeometry :=
  ⟨⟨⟨0, 0, 0⟩, size⟩, ⟨r, r, r⟩, size⟩

/-- A pipeline over the current time step: `setTime` throws for a time step
of 10 or more, `update` hands back the block setup as the buffer. -/
def Pipeline.recording : Pipeline Nat BlockSetup :=
  { setTime := fun t s =>
      if t < 10 then (.ok (), t) else (.error (.stdException "no such frame"), s),
    update := fun setup s => (.ok setup, s) }

/-- A data source over the unit box with a single voxel, no borders and the
given tree depth. -/
def DataSource.unit (rootNodeDepth : Nat) : DataSource :=
  ⟨VolumeInformation.initial ⟨0, 0⟩ rootNodeDepth, ⟨0, 0, 0⟩,
    SourceGeometry.box ⟨1, 1, 1⟩ 1⟩

/-- A URI given by its scheme and the list of its query pairs. -/
def URI.ofPairs (scheme : String) (query : List (String × String)) : URI :=
  ⟨scheme, fun key => query.lookup key⟩

/-- The behaviour of `boost::lexical_cast< bool >` on strings: `"1"` is true,
`"0"` is false, anything else throws. -/
def lexicalCastBool (value : String) : Option Bool :=
  if value = "1" then some true else if value = "0" then some false else none

/-- The behaviour of `boost::lexical_cast< std::string >` on strings: the
value itself. -/
def lexicalCastString (value : String) : Option String := some value

/-- A stand-in for `boost::lexical_cast` to a number that reads the two
strings `"0"` and `"2"` and throws on anything else. -/
def lexicalCastDigit {T : Type} [OfNat T 0] [OfNat T 2] (value : String) : Option T :=
  if value = "0" then some 0 else if value = "2" then some 2 else none

/-! # Theorems -/

/-! ## Frame-range update -/

/-- C1, as stated, fails: with the stored range `[0, 10]` and a store that
reports `[0, 5]`, `update` returns true although the upper frame bound did
not increase. -/
theorem update_changed_without_growth :
    (DataSource.update ⟨0, 5⟩
        ⟨VolumeInformation.initial ⟨0, 10⟩ 1, ⟨0, 0, 0⟩,
          SourceGeometry.box ⟨1, 1, 1⟩ 1⟩).1 = true ∧
      ¬ ((VolumeInformation.initial ⟨0, 10⟩ 1).frameRange.y < (⟨0, 5⟩ : Vector2ui).y ∧
          (⟨0, 5⟩ : Vector2ui).y ≠ 0) := by
  decide

/-- C1, amended: `DataSource::update` returns true exactly when the frame
range reported by the event store differs from the stored one (in either
bound), and false for an identical range. -/
theorem update_changed_iff (frameRange : Vector2ui) (ds : DataSource) :
    (DataSource.update frameRange ds).1 = true ↔
      frameRange ≠ ds.volumeInfo.frameRange := by
  unfold DataSource.update Impl.update
  by_cases h : ds.volumeInfo.frameRange = frameRange
  · simp [h]
  · simp [h, Ne.symm h]

/-- C2: after `update` the stored frame range is the range of the store when
that range differs from the stored one and its upper bound is nonzero, and
is unchanged otherwise; every other field of the volume information
(voxels, maximumBlockSize, transform, resolution among them), the borders
and the source geometry are left as they were. -/
theorem update_frame_effect (frameRange : Vector2ui) (ds : DataSource) :
    (DataSource.update frameRange ds).2.volumeInfo.frameRange =
        (if frameRange ≠ ds.volumeInfo.frameRange ∧ frameRange.y ≠ 0 then frameRange
         else ds.volumeInfo.frameRange) ∧
      (DataSource.update frameRange ds).2.volumeInfo =
        { ds.volumeInfo with
          frameRange := (DataSource.update frameRange ds).2.volumeInfo.frameRange } ∧
      (DataSource.update frameRange ds).2.volumeInfo.voxels = ds.volumeInfo.voxels ∧
      (DataSource.update frameRange ds).2.volumeInfo.maximumBlockSize =
        ds.volumeInfo.maximumBlockSize ∧
      (DataSource.update frameRange ds).2.volumeInfo.dataToLivreTransform =
        ds.volumeInfo.dataToLivreTransform ∧
      (DataSource.update frameRange ds).2.volumeInfo.resolution =
        ds.volumeInfo.resolution ∧
      (DataSource.update frameRange ds).2.borders = ds.borders ∧
      (DataSource.update frameRange ds).2.source = ds.source := by
  unfold DataSource.update Impl.update
  by_cases h : ds.volumeInfo.frameRange = frameRange
  · subst h
    simp
  · have hne : ¬ frameRange = ds.volumeInfo.frameRange := fun e => h e.symm
    by_cases hy : frameRange.y = 0
    · simp [h, hne, hy]
    · have : 0 < frameRange.y := Nat.pos_of_ne_zero hy
      simp [h, hne, hy, this]

/-! ## Frequency functor -/

/-- The running maximum of the reduction loop from any start value, read in
`WithBot ℚ`, is the larger of the start value and the maximum of the event
values. -/
theorem foldl_max_coe (events : List Event) (a : ℚ) :
    ((events.foldl (fun sum event => max sum event.value) a : ℚ) : WithBot ℚ) =
      max (a : WithBot ℚ) (events.map Event.value).maximum := by
  induction events generalizing a with
  | nil => simp
  | cons e es ih =>
    simp only [List.foldl_cons, List.map_cons, List.maximum_cons]
    rw [ih, WithBot.coe_max, max_assoc]

/-- The reduction loop is monotone in the start value and in the event
values, taken position by position. -/
theorem foldl_max_mono (es1 es2 : List Event) (a b : ℚ) (hab : a ≤ b)
    (h : List.Forall₂
      (fun e1 e2 : Event => e1.position = e2.position ∧ e1.value ≤ e2.value) es1 es2) :
    es1.foldl (fun sum event => max sum event.value) a ≤
      es2.foldl (fun sum event => max sum event.value) b := by
  induction h generalizing a b with
  | nil => simpa using hab
  | cons hd _ ih =>
    simp only [List.foldl_cons]
    exact ih _ _ (max_le_max hab hd.2)

/-- Clamping is monotone in the clamped value. -/
theorem clamp_monotone (lo hi : ℚ) : Monotone (fun v => clamp v lo hi) := by
  intro a b hab
  exact max_le_max le_rfl (min_le_min hab le_rfl)

/-- The normalizer is monotone for a proper input range and a non-negative
output maximum. -/
theorem scale_monotone (inputMin inputMax outputTypeMax : ℚ) (hr : inputMin < inputMax)
    (ho : 0 ≤ outputTypeMax) : Monotone (scale inputMin inputMax outputTypeMax) := by
  intro a b hab
  unfold scale
  apply mul_le_mul_of_nonneg_right _ ho
  apply clamp_monotone
  apply div_le_div_of_nonneg_right _ (le_of_lt (sub_pos.mpr hr))
  linarith

/-- The normalizer maps the raw value 0 to 0 when the input range starts at
or above 0. -/
theorem scale_zero_of_nonneg (inputMin inputMax outputTypeMax : ℚ)
    (hr : inputMin < inputMax) (h0 : 0 ≤ inputMin) :
    scale inputMin inputMax outputTypeMax 0 = 0 := by
  unfold scale clamp
  have hd : (0 - inputMin) / (inputMax - inputMin) ≤ 0 :=
    div_nonpos_of_nonpos_of_nonneg (by linarith) (le_of_lt (sub_pos.mpr hr))
  rw [min_eq_left (le_trans hd zero_le_one), max_eq_left hd, zero_mul]

/-- The normalizer maps the raw value 0 above 0 when the input range starts
below 0. -/
theorem scale_zero_pos_of_neg (inputMin inputMax outputTypeMax : ℚ)
    (hr : inputMin < inputMax) (h0 : inputMin < 0) (ho : 0 < outputTypeMax) :
    0 < scale inputMin inputMax outputTypeMax 0 := by
  unfold scale clamp
  have hd : 0 < (0 - inputMin) / (inputMax - inputMin) :=
    div_pos (by linarith) (sub_pos.mpr hr)
  apply mul_pos _ ho
  exact lt_max_of_lt_right (lt_min hd one_pos)

/-- C3, as stated, fails: for the single event `(0,0,0,-5)` and the voxel of
spacing 1 centered at the origin, the match sequence is that event, the
maximum of the event values is -5, and the raw value handed to the scale
step is 0. -/
theorem frequency_raw_not_maximum_of_negative :
    (EventSource.ofEvents [⟨⟨0, 0, 0⟩, -5⟩]).findEvents
        (FrequencyFunctor.region ⟨0, 0, 0⟩ ⟨1, 1, 1⟩) = [⟨⟨0, 0, 0⟩, -5⟩] ∧
      (((EventSource.ofEvents [⟨⟨0, 0, 0⟩, -5⟩]).findEvents
        (FrequencyFunctor.region ⟨0, 0, 0⟩ ⟨1, 1, 1⟩)).map Event.value).maximum
          = ((-5 : ℚ) : WithBot ℚ) ∧
      FrequencyFunctor.rawValue (EventSource.ofEvents [⟨⟨0, 0, 0⟩, -5⟩])
        ⟨0, 0, 0⟩ ⟨1, 1, 1⟩ = 0 ∧
      FrequencyFunctor.rawValue (EventSource.ofEvents [⟨⟨0, 0, 0⟩, -5⟩])
        ⟨0, 0, 0⟩ ⟨1, 1, 1⟩ ≠ -5 := by
  have h : (EventSource.ofEvents [⟨⟨0, 0, 0⟩, -5⟩]).findEvents
        (FrequencyFunctor.region ⟨0, 0, 0⟩ ⟨1, 1, 1⟩) = [⟨⟨0, 0, 0⟩, -5⟩] := by
    norm_num [EventSource.ofEvents, FrequencyFunctor.region, Event.inRegion, Vector3f.sub,
      Vector3f.add, List.filter]
  have hraw : FrequencyFunctor.rawValue (EventSource.ofEvents [⟨⟨0, 0, 0⟩, -5⟩])
        ⟨0, 0, 0⟩ ⟨1, 1, 1⟩ = 0 := by
    rw [FrequencyFunctor.rawValue, h]
    norm_num [FrequencyFunctor.reduce]
  refine ⟨h, ?_, hraw, ?_⟩
  · rw [h]
    simp [List.maximum_cons]
  · rw [hraw]
    norm_num

/-- C3, amended: with a source attached, the value handed to the scale step
is the larger of 0 and the maximum of `event.value` over the events returned
by `findEvents` for the voxel region: it is 0 for an empty sequence, it is
the maximum itself when that maximum is non-negative, and for the events
`(0,0,0,10)`, `(1,0,0,5)` with spacing 1 centered at the origin it is 10. -/
theorem frequency_raw_value (f : FrequencyFunctor) (src : EventSource)
    (itkPoint itkSpacing : Vector3f) (hsrc : f.source = some src) :
    f.call itkPoint itkSpacing =
        f.scale (FrequencyFunctor.rawValue src itkPoint itkSpacing) ∧
      (src.findEvents (FrequencyFunctor.region itkPoint itkSpacing) = [] →
        FrequencyFunctor.rawValue src itkPoint itkSpacing = 0) ∧
      (∀ m : ℚ,
        ((src.findEvents (FrequencyFunctor.region itkPoint itkSpacing)).map
            Event.value).maximum = (m : WithBot ℚ) →
          FrequencyFunctor.rawValue src itkPoint itkSpacing = max 0 m) ∧
      (∀ m : ℚ, 0 ≤ m →
        ((src.findEvents (FrequencyFunctor.region itkPoint itkSpacing)).map
            Event.value).maximum = (m : WithBot ℚ) →
          FrequencyFunctor.rawValue src itkPoint itkSpacing = m) ∧
      FrequencyFunctor.rawValue
        (EventSource.ofEvents [⟨⟨0, 0, 0⟩, 10⟩, ⟨⟨1, 0, 0⟩, 5⟩]) ⟨0, 0, 0⟩ ⟨1, 1, 1⟩
          = 10 := by
  have key : ∀ m : ℚ,
        ((src.findEvents (FrequencyFunctor.region itkPoint itkSpacing)).map
            Event.value).maximum = (m : WithBot ℚ) →
          FrequencyFunctor.rawValue src itkPoint itkSpacing = max 0 m := by
    intro m hm
    have h := foldl_max_coe (src.findEvents (FrequencyFunctor.region itkPoint itkSpacing)) 0
    rw [hm, ← WithBot.coe_max] at h
    exact WithBot.coe_injective h
  refine ⟨?_, ?_, key, ?_, ?_⟩
  · simp [FrequencyFunctor.call, hsrc]
  · intro h
    simp [FrequencyFunctor.rawValue, FrequencyFunctor.reduce, h]
  · intro m hm0 hm
    rw [key m hm, max_eq_right hm0]
  · norm_num [FrequencyFunctor.rawValue, EventSource.ofEvents, FrequencyFunctor.region,
      FrequencyFunctor.reduce, Event.inRegion, Vector3f.sub, Vector3f.add, List.filter]

/-- Witness for C3: the functor over the two events of the spec example,
with the input range `[0, 20]`, hands its raw value to the scale step. -/
theorem frequency_raw_value_witness :
    (FrequencyFunctor.normalized (EventSource.ofEvents [⟨⟨0, 0, 0⟩, 10⟩, ⟨⟨1, 0, 0⟩, 5⟩])
        0 20 255).call ⟨0, 0, 0⟩ ⟨1, 1, 1⟩ =
      scale 0 20 255 (FrequencyFunctor.rawValue
        (EventSource.ofEvents [⟨⟨0, 0, 0⟩, 10⟩, ⟨⟨1, 0, 0⟩, 5⟩]) ⟨0, 0, 0⟩ ⟨1, 1, 1⟩) :=
  (frequency_raw_value
    (FrequencyFunctor.normalized (EventSource.ofEvents [⟨⟨0, 0, 0⟩, 10⟩, ⟨⟨1, 0, 0⟩, 5⟩])
        0 20 255) _ ⟨0, 0, 0⟩ ⟨1, 1, 1⟩ rfl).1

/-- C4, as stated, fails: with the input range `[-190, 0]` and the output
maximum 255, a voxel whose region matches no event gets the output 255, not
the minimum output 0. -/
theorem frequency_empty_region_not_minimum :
    (-190 : ℚ) < 0 ∧
      (EventSource.ofEvents []).findEvents
        (FrequencyFunctor.region ⟨0, 0, 0⟩ ⟨1, 1, 1⟩) = [] ∧
      (FrequencyFunctor.normalized (EventSource.ofEvents []) (-190) 0 255).call
        ⟨0, 0, 0⟩ ⟨1, 1, 1⟩ = 255 := by
  refine ⟨by norm_num, rfl, ?_⟩
  norm_num [FrequencyFunctor.normalized, FrequencyFunctor.call, FrequencyFunctor.rawValue,
    EventSource.ofEvents, FrequencyFunctor.reduce, scale, clamp]

/-- C4, amended: for an input range with `inputMin < inputMax` and a voxel
whose region matches no event, the functor returns `scale(0)`; this is the
minimum output 0 when `0 ≤ inputMin`, and lies above 0 when `inputMin < 0`
and the output maximum is positive. -/
theorem frequency_empty_region (src : EventSource) (inputMin inputMax outputTypeMax : ℚ)
    (itkPoint itkSpacing : Vector3f) (hr : inputMin < inputMax)
    (hempty : src.findEvents (FrequencyFunctor.region itkPoint itkSpacing) = []) :
    (FrequencyFunctor.normalized src inputMin inputMax outputTypeMax).call
        itkPoint itkSpacing = scale inputMin inputMax outputTypeMax 0 ∧
      (0 ≤ inputMin →
        (FrequencyFunctor.normalized src inputMin inputMax outputTypeMax).call
          itkPoint itkSpacing = 0) ∧
      (inputMin < 0 → 0 < outputTypeMax →
        0 < (FrequencyFunctor.normalized src inputMin inputMax outputTypeMax).call
          itkPoint itkSpacing) := by
  have hcall : (FrequencyFunctor.normalized src inputMin inputMax outputTypeMax).call
        itkPoint itkSpacing = scale inputMin inputMax outputTypeMax 0 := by
    simp [FrequencyFunctor.normalized, FrequencyFunctor.call, FrequencyFunctor.rawValue,
      FrequencyFunctor.reduce, hempty]
  refine ⟨hcall, ?_, ?_⟩
  · intro h0
    rw [hcall, scale_zero_of_nonneg _ _ _ hr h0]
  · intro h0 ho
    rw [hcall]
    exact scale_zero_pos_of_neg _ _ _ hr h0 ho

/-- Witness for C4: one event away from the voxel, input range `[0, 2]`. -/
theorem frequency_empty_region_witness :
    (FrequencyFunctor.normalized (EventSource.ofEvents [⟨⟨5, 5, 5⟩, 3⟩]) 0 2 255).call
        ⟨0, 0, 0⟩ ⟨1, 1, 1⟩ = 0 :=
  (frequency_empty_region (EventSource.ofEvents [⟨⟨5, 5, 5⟩, 3⟩]) 0 2 255 ⟨0, 0, 0⟩
    ⟨1, 1, 1⟩ (by norm_num)
    (by
      norm_num [EventSource.ofEvents, FrequencyFunctor.region, Event.inRegion,
        Vector3f.sub, Vector3f.add, List.filter])).2.1 le_rfl

/-- C5: when two match sequences hold the same events in the same order and
every value of the second is at least the corresponding value of the first,
the raw reduced value of the second is at least that of the first, and so is
the functor output under any monotone scale step. -/
theorem frequency_monotone (src1 src2 : EventSource) (scaleStep : ℚ → ℚ)
    (itkPoint itkSpacing : Vector3f) (hscale : Monotone scaleStep)
    (hevents : List.Forall₂
      (fun e1 e2 : Event => e1.position = e2.position ∧ e1.value ≤ e2.value)
      (src1.findEvents (FrequencyFunctor.region itkPoint itkSpacing))
      (src2.findEvents (FrequencyFunctor.region itkPoint itkSpacing))) :
    FrequencyFunctor.rawValue src1 itkPoint itkSpacing ≤
        FrequencyFunctor.rawValue src2 itkPoint itkSpacing ∧
      (FrequencyFunctor.mk (some src1) scaleStep).call itkPoint itkSpacing ≤
        (FrequencyFunctor.mk (some src2) scaleStep).call itkPoint itkSpacing := by
  have hraw : FrequencyFunctor.rawValue src1 itkPoint itkSpacing ≤
        FrequencyFunctor.rawValue src2 itkPoint itkSpacing :=
    foldl_max_mono _ _ 0 0 le_rfl hevents
  exact ⟨hraw, hscale hraw⟩

/-- Witness for C5: raising the first event from 3 to 9 does not lower the
output under the normalizer with input range `[0, 20]`. -/
theorem frequency_monotone_witness :
    (FrequencyFunctor.mk (some (EventSource.ofEvents [⟨⟨0, 0, 0⟩, 3⟩, ⟨⟨0, 0, 0⟩, 7⟩]))
        (scale 0 20 255)).call ⟨0, 0, 0⟩ ⟨1, 1, 1⟩ ≤
      (FrequencyFunctor.mk (some (EventSource.ofEvents [⟨⟨0, 0, 0⟩, 9⟩, ⟨⟨0, 0, 0⟩, 7⟩]))
        (scale 0 20 255)).call ⟨0, 0, 0⟩ ⟨1, 1, 1⟩ :=
  (frequency_monotone (EventSource.ofEvents [⟨⟨0, 0, 0⟩, 3⟩, ⟨⟨0, 0, 0⟩, 7⟩])
    (EventSource.ofEvents [⟨⟨0, 0, 0⟩, 9⟩, ⟨⟨0, 0, 0⟩, 7⟩]) (scale 0 20 255)
    ⟨0, 0, 0⟩ ⟨1, 1, 1⟩ (scale_monotone 0 20 255 (by norm_num) (by norm_num))
    (by
      norm_num [EventSource.ofEvents, FrequencyFunctor.region, Event.inRegion,
        Vector3f.sub, Vector3f.add, List.filter])).2

/-! ## Geometry derivation -/

/-- Dividing by `2 ^ 0` changes nothing. -/
theorem divScalar_one (v : Vector3f) : v.divScalar (2 ^ 0) = v := by
  simp [Vector3f.divScalar]

/-- One halving followed by `k` halvings is `k + 1` halvings. -/
theorem divScalar_two_pow_succ (v : Vector3f) (k : Nat) :
    (v.divScalar 2).divScalar (2 ^ k) = v.divScalar (2 ^ (k + 1)) := by
  simp only [Vector3f.divScalar, Vector3f.mk.injEq]
  refine ⟨?_, ?_, ?_⟩ <;> rw [div_div, pow_succ, mul_comm]

/-- The exit test, spelled out. -/
theorem fitsBlock_iff (maxBlockByteSize : Nat) (b : Vector3f) :
    fitsBlock maxBlockByteSize b = true ↔
      (floatProduct b).lt (FloatValue.ofRat maxBlockByteSize) = true ∧
        b.x < 2048 ∧ b.y < 2048 ∧ b.z < 2048 := by
  simp [fitsBlock, maxTextureSize]

/-- What an exit of the halving loop from `(blockResolution, depth)` means:
some number `n` of halvings was made, the test holds after them and failed
before each of them. -/
theorem halvingLoop_some (maxBlockByteSize : Nat) (fuel : Nat) (blockResolution : Vector3f)
    (depth : Nat) (res : Vector3f × Nat)
    (h : halvingLoop maxBlockByteSize fuel blockResolution depth = some res) :
    ∃ n, res.2 = depth + n ∧ res.1 = blockResolution.divScalar (2 ^ n) ∧
      fitsBlock maxBlockByteSize res.1 = true ∧
      ∀ k, k < n →
        fitsBlock maxBlockByteSize (blockResolution.divScalar (2 ^ k)) = false := by
  induction fuel generalizing blockResolution depth with
  | zero => simp [halvingLoop] at h
  | succ fuel ih =>
    rw [halvingLoop] at h
    by_cases hfit : fitsBlock maxBlockByteSize blockResolution = true
    · rw [if_pos hfit] at h
      cases h
      exact ⟨0, rfl, (divScalar_one _).symm, hfit, fun k hk => absurd hk (Nat.not_lt_zero k)⟩
    · rw [if_neg hfit] at h
      obtain ⟨n, hd, hb, hf, hmin⟩ := ih _ _ h
      refine ⟨n + 1, by omega, by rw [hb, divScalar_two_pow_succ], hf, ?_⟩
      intro k hk
      cases k with
      | zero => rw [divScalar_one]; simpa using hfit
      | succ k =>
        rw [← divScalar_two_pow_succ]
        exact hmin k (by omega)

/-- The loop exits as soon as some number `k` of halvings satisfies the exit
test and the fuel exceeds `k`. -/
theorem halvingLoop_exits (maxBlockByteSize : Nat) (k : Nat) (fuel : Nat)
    (blockResolution : Vector3f) (depth : Nat)
    (hfit : fitsBlock maxBlockByteSize (blockResolution.divScalar (2 ^ k)) = true)
    (hfuel : k < fuel) :
    ∃ res, halvingLoop maxBlockByteSize fuel blockResolution depth = some res := by
  induction k generalizing fuel blockResolution depth with
  | zero =>
    obtain ⟨fuel, rfl⟩ : ∃ f, fuel = f + 1 := ⟨fuel - 1, by omega⟩
    rw [divScalar_one] at hfit
    exact ⟨_, by rw [halvingLoop, if_pos hfit]⟩
  | succ k ih =>
    obtain ⟨fuel, rfl⟩ : ∃ f, fuel = f + 1 := ⟨fuel - 1, by omega⟩
    rw [halvingLoop]
    by_cases h0 : fitsBlock maxBlockByteSize blockResolution = true
    · exact ⟨_, by rw [if_pos h0]⟩
    · rw [if_neg h0]
      rw [← divScalar_two_pow_succ] at hfit
      exact ih fuel _ _ hfit (by omega)

/-- The conversion of a ceiling to `uint32_t`, when it has a value. -/
theorem ceilToUInt32_some (q : ℚ) (c : Nat) (h : ceilToUInt32 q = some c) :
    (0 ≤ ⌈q⌉ ∧ ⌈q⌉ < 2 ^ 32) ∧ c = ⌈q⌉.toNat := by
  unfold ceilToUInt32 at h
  split at h
  · rename_i hq
    simp only [Option.some.injEq] at h
    exact ⟨hq, h.symm⟩
  · exact absurd h (by simp)

/-- The conversion of a natural number below `2 ^ 32`. -/
theorem ceilToUInt32_natCast (n : Nat) (h : n < 2 ^ 32) :
    ceilToUInt32 (n : ℚ) = some n := by
  have hc : ⌈(n : ℚ)⌉ = (n : ℤ) := by exact_mod_cast Int.ceil_natCast n
  unfold ceilToUInt32
  rw [hc, if_pos ⟨by omega, by exact_mod_cast h⟩]
  simp

/-- The block dimensions, when they have a value, are the aligned ceilings
of the three components. -/
theorem blockDimOf_some (blockResolution : Vector3f) (blockDim : Vector3ui)
    (h : blockDimOf blockResolution = some blockDim) :
    (0 ≤ ⌈blockResolution.x⌉ ∧ ⌈blockResolution.x⌉ < 2 ^ 32) ∧
      (0 ≤ ⌈blockResolution.y⌉ ∧ ⌈blockResolution.y⌉ < 2 ^ 32) ∧
      (0 ≤ ⌈blockResolution.z⌉ ∧ ⌈blockResolution.z⌉ < 2 ^ 32) ∧
      blockDim = ⟨alignBlockDim ⌈blockResolution.x⌉.toNat,
        alignBlockDim ⌈blockResolution.y⌉.toNat,
        alignBlockDim ⌈blockResolution.z⌉.toNat⟩ := by
  unfold blockDimOf at h
  split at h
  · rename_i cx cy cz hx hy hz
    obtain ⟨bx, rfl⟩ := ceilToUInt32_some _ _ hx
    obtain ⟨by', rfl⟩ := ceilToUInt32_some _ _ hy
    obtain ⟨bz, rfl⟩ := ceilToUInt32_some _ _ hz
    simp only [Option.some.injEq] at h
    exact ⟨bx, by', bz, h.symm⟩
  · exact absurd h (by simp)

/-- The tree quotient has a value only for a depth of at most 31, and its
low 32 bits are then `2 ^ depth`. -/
theorem treeQuotientOf_some (depth q : Nat) (h : treeQuotientOf depth = some q) :
    depth ≤ 31 ∧ q % 2 ^ 32 = 2 ^ depth := by
  unfold treeQuotientOf shiftLeftOne at h
  by_cases h1 : (0 : Int) ≤ (depth : Int) ∧ (depth : Int) < 31
  · rw [if_pos h1] at h
    simp only [Option.map_some', Option.some.injEq, Int.toNat_ofNat] at h
    have hd : depth < 31 := by omega
    have hlt : (2 : Nat) ^ depth < 2 ^ 31 := Nat.pow_lt_pow_right (by norm_num) hd
    have hcast : ((2 : Int) ^ depth) = ((2 ^ depth : Nat) : Int) := by push_cast; rfl
    have hq : q = 2 ^ depth := by
      rw [← h, hcast, Int.emod_eq_of_lt (by positivity), Int.toNat_ofNat]
      have : (2 : Nat) ^ depth < 2 ^ 64 := lt_trans hlt (by norm_num)
      exact_mod_cast this
    refine ⟨by omega, ?_⟩
    rw [hq]
    exact Nat.mod_eq_of_lt (lt_trans hlt (by norm_num))
  · rw [if_neg h1] at h
    by_cases h2 : (depth : Int) = 31
    · rw [if_pos h2] at h
      have hd : depth = 31 := by omega
      subst hd
      simp only [Option.map_some', Option.some.injEq] at h
      refine ⟨le_rfl, ?_⟩
      rw [← h]
      decide
    · rw [if_neg h2] at h
      simp at h

/-- What a completed construction went through: the loop exit, the block
dimensions, the tree quotient, the Livre helper, and the values stored. -/
theorem DataSource.new_some (src : SourceGeometry) (maxBlockByteSize : Nat)
    (description : String)
    (fillRegularVolumeInfo : VolumeInformation → Option VolumeInformation)
    (info0 : VolumeInformation) (fuel : Nat) (ds : DataSource)
    (h : DataSource.new src maxBlockByteSize description fillRegularVolumeInfo info0 fuel
      = some ds) :
    ∃ blockResolution depth blockDim treeQuotient info3,
      halvingLoop maxBlockByteSize fuel (src.sizeInMicrometer.mul src.resolution) 0
        = some (blockResolution, depth) ∧
      blockDimOf blockResolution = some blockDim ∧
      treeQuotientOf depth = some treeQuotient ∧
      (src.resolution.x ≠ 0 ∧ src.resolution.y ≠ 0 ∧ src.resolution.z ≠ 0) ∧
      fillRegularVolumeInfo
        { info0 with meterToDataUnitRatio := 1000000, description := description,
                     voxels := totalTreeSizeOf blockDim treeQuotient,
                     maximumBlockSize := blockDim } = some info3 ∧
      ds.borders = ((totalTreeSizeOf blockDim treeQuotient).toFloat.div src.resolution).sub
        src.boundingBox.getSize ∧
      ds.source = src ∧
      ds.volumeInfo.voxels = info3.voxels ∧
      ds.volumeInfo.maximumBlockSize = info3.maximumBlockSize ∧
      ds.volumeInfo.resolution = src.resolution := by
  unfold DataSource.new at h
  simp only at h
  split at h
  · exact absurd h (by simp)
  · rename_i blockResolution depth hloop
    split at h
    · exact absurd h (by simp)
    · exact absurd h (by simp)
    · rename_i blockDim treeQuotient hdim hq
      split at h
      · exact absurd h (by simp)
      · rename_i hres
        split at h
        · exact absurd h (by simp)
        · rename_i info3 hfill
          split at h
          · exact absurd h (by simp)
          · simp only [Option.some.injEq] at h
            subst h
            refine ⟨blockResolution, depth, blockDim, treeQuotient, info3, hloop, hdim, hq,
              ?_, hfill, rfl, rfl, rfl, rfl, rfl⟩
            push_neg at hres
            exact hres

/-- The alignment of one dimension: unchanged up to 8, else the greatest
multiple of 8 below or at it. -/
theorem alignBlockDim_spec (c : Nat) :
    (c ≤ 8 → alignBlockDim c = c) ∧
      (8 < c → 8 ∣ alignBlockDim c ∧ 8 ≤ alignBlockDim c ∧ alignBlockDim c ≤ c ∧
        c - alignBlockDim c < 8 ∧ ∀ m, 8 ∣ m → m ≤ c → m ≤ alignBlockDim c) := by
  unfold alignBlockDim
  constructor
  · intro h
    rw [if_neg (by omega)]
  · intro h
    rw [if_pos h]
    refine ⟨Nat.dvd_sub_mod c, by omega, by omega, by omega, ?_⟩
    intro m hm hle
    obtain ⟨j, rfl⟩ := hm
    omega

/-- C6: the block dimensions of the constructor are, on every axis, the
aligned ceiling `c` of the candidate block resolution: `c` itself when
`c ≤ 8`; when `c > 8` the greatest multiple of 8 that is at most `c`, which
is a multiple of 8, at least 8, and less than 8 below `c`. -/
theorem blockDim_alignment (blockResolution : Vector3f) (blockDim : Vector3ui)
    (h : blockDimOf blockResolution = some blockDim) :
    ∀ c a : Nat,
      ((c = ⌈blockResolution.x⌉.toNat ∧ a = blockDim.x) ∨
       (c = ⌈blockResolution.y⌉.toNat ∧ a = blockDim.y) ∨
       (c = ⌈blockResolution.z⌉.toNat ∧ a = blockDim.z)) →
      (c ≤ 8 → a = c) ∧
      (8 < c → 8 ∣ a ∧ 8 ≤ a ∧ a ≤ c ∧ c - a < 8 ∧ ∀ m, 8 ∣ m → m ≤ c → m ≤ a) := by
  obtain ⟨_, _, _, hdim⟩ := blockDimOf_some _ _ h
  subst hdim
  intro c a hca
  rcases hca with ⟨rfl, rfl⟩ | ⟨rfl, rfl⟩ | ⟨rfl, rfl⟩ <;> exact alignBlockDim_spec _

/-- Witness for C6: the candidate `(250, 5, 2061/2)` has the ceilings
`(250, 5, 1031)` and the block dimensions `(248, 5, 1024)`; on the first
axis 248 is a multiple of 8. -/
theorem blockDim_alignment_witness :
    blockDimOf ⟨250, 5, 2061 / 2⟩ = some ⟨248, 5, 1024⟩ ∧ 8 ∣ 248 :=
  have h250 : ⌈(250 : ℚ)⌉ = 250 := by exact_mod_cast Int.ceil_natCast 250
  have h5 : ⌈(5 : ℚ)⌉ = 5 := by exact_mod_cast Int.ceil_natCast 5
  have h1031 : ⌈(2061 / 2 : ℚ)⌉ = 1031 := by
    rw [Int.ceil_eq_iff]
    norm_num
  have h : blockDimOf ⟨250, 5, 2061 / 2⟩ = some ⟨248, 5, 1024⟩ := by
    simp [blockDimOf, ceilToUInt32, h250, h5, h1031, alignBlockDim]
  ⟨h, ((blockDim_alignment ⟨250, 5, 2061 / 2⟩ ⟨248, 5, 1024⟩ h 250 248
    (Or.inl ⟨by rw [h250]; rfl, rfl⟩)).2 (by norm_num)).1⟩

/-- C7, as stated, fails: for a source of `3 * 2 ^ 30` by `5 * 2 ^ 30` by
`3 * 2 ^ 30` voxels and a budget of 64, the loop exits at depth 30 with the
block dimensions `(3, 5, 3)`; on the second axis the stored voxel extent is
`5 * 2 ^ 30` reduced modulo `2 ^ 32`, that is `2 ^ 30`, which is neither
`5 * 2 ^ 30` nor a multiple of 5. -/
theorem volume_extent_wraps :
    halvingLoop 64 31 ⟨3 * 2 ^ 30, 5 * 2 ^ 30, 3 * 2 ^ 30⟩ 0 = some (⟨3, 5, 3⟩, 30) ∧
      (DataSource.new (SourceGeometry.box ⟨3 * 2 ^ 30, 5 * 2 ^ 30, 3 * 2 ^ 30⟩ 1) 64 ""
          some (VolumeInformation.initial ⟨0, 0⟩ 1) 31).map
          (fun ds => (ds.volumeInfo.maximumBlockSize, ds.volumeInfo.voxels)) =
        some (⟨3, 5, 3⟩, ⟨3221225472, 1073741824, 3221225472⟩) ∧
      (1073741824 : Nat) ≠ 5 * 2 ^ 30 ∧ ¬ (5 ∣ (1073741824 : Nat)) := by
  have hloop : halvingLoop 64 31 ⟨3 * 2 ^ 30, 5 * 2 ^ 30, 3 * 2 ^ 30⟩ 0
      = some (⟨3, 5, 3⟩, 30) := by
    decide!
  have hfull :
      (SourceGeometry.box ⟨3 * 2 ^ 30, 5 * 2 ^ 30, 3 * 2 ^ 30⟩ 1).sizeInMicrometer.mul
        (SourceGeometry.box ⟨3 * 2 ^ 30, 5 * 2 ^ 30, 3 * 2 ^ 30⟩ 1).resolution =
      ⟨3 * 2 ^ 30, 5 * 2 ^ 30, 3 * 2 ^ 30⟩ := by
    simp [SourceGeometry.box, Vector3f.mul]
  have h3 := ceilToUInt32_natCast 3 (by norm_num)
  have h5 := ceilToUInt32_natCast 5 (by norm_num)
  simp only [Nat.cast_ofNat] at h3 h5
  have hdim : blockDimOf ⟨3, 5, 3⟩ = some ⟨3, 5, 3⟩ := by
    simp [blockDimOf, h3, h5, alignBlockDim]
  have hq : treeQuotientOf 30 = some (2 ^ 30) := by
    simp [treeQuotientOf, shiftLeftOne]
  refine ⟨hloop, ?_, by norm_num, by norm_num⟩
  unfold DataSource.new
  simp only [hfull, hloop, hdim, hq]
  norm_num [SourceGeometry.box, totalTreeSizeOf, Vector3ui.toFloat, Vector3f.div,
    Vector3f.sub, AABBf.getSize, VolumeInformation.initial]

/-- C7, amended: when the construction completes (with a Livre helper that
leaves the voxel extent and the block size as set), the loop exited at a
depth `d ≤ 31`, the stored block size is the aligned block dimension, and on
each axis the stored voxel extent is the block dimension times `2 ^ d`
reduced modulo `2 ^ 32`; whenever that product is below `2 ^ 32` the extent
is exactly the block dimension times `2 ^ d`, hence an integer multiple of
the block dimension. -/
theorem volume_extent (src : SourceGeometry) (maxBlockByteSize : Nat)
    (description : String)
    (fillRegularVolumeInfo : VolumeInformation → Option VolumeInformation)
    (info0 : VolumeInformation) (fuel : Nat) (ds : DataSource)
    (hfill : ∀ i j, fillRegularVolumeInfo i = some j →
      j.voxels = i.voxels ∧ j.maximumBlockSize = i.maximumBlockSize)
    (h : DataSource.new src maxBlockByteSize description fillRegularVolumeInfo info0 fuel
      = some ds) :
    ∃ blockResolution d,
      halvingLoop maxBlockByteSize fuel (src.sizeInMicrometer.mul src.resolution) 0
        = some (blockResolution, d) ∧
      d ≤ 31 ∧
      blockDimOf blockResolution = some ds.volumeInfo.maximumBlockSize ∧
      ds.volumeInfo.voxels.x = (ds.volumeInfo.maximumBlockSize.x * 2 ^ d) % 2 ^ 32 ∧
      ds.volumeInfo.voxels.y = (ds.volumeInfo.maximumBlockSize.y * 2 ^ d) % 2 ^ 32 ∧
      ds.volumeInfo.voxels.z = (ds.volumeInfo.maximumBlockSize.z * 2 ^ d) % 2 ^ 32 ∧
      (ds.volumeInfo.maximumBlockSize.x * 2 ^ d < 2 ^ 32 →
        ds.volumeInfo.voxels.x = ds.volumeInfo.maximumBlockSize.x * 2 ^ d ∧
        ds.volumeInfo.maximumBlockSize.x ∣ ds.volumeInfo.voxels.x) ∧
      (ds.volumeInfo.maximumBlockSize.y * 2 ^ d < 2 ^ 32 →
        ds.volumeInfo.voxels.y = ds.volumeInfo.maximumBlockSize.y * 2 ^ d ∧
        ds.volumeInfo.maximumBlockSize.y ∣ ds.volumeInfo.voxels.y) ∧
      (ds.volumeInfo.maximumBlockSize.z * 2 ^ d < 2 ^ 32 →
        ds.volumeInfo.voxels.z = ds.volumeInfo.maximumBlockSize.z * 2 ^ d ∧
        ds.volumeInfo.maximumBlockSize.z ∣ ds.volumeInfo.voxels.z) := by
  obtain ⟨blockResolution, d, blockDim, q, info3, hloop, hdim, hq, _, hf, _, _, hv, hm, _⟩ :=
    DataSource.new_some _ _ _ _ _ _ _ h
  obtain ⟨hv3, hm3⟩ := hfill _ _ hf
  simp only at hv3 hm3
  obtain ⟨hd, hqmod⟩ := treeQuotientOf_some _ _ hq
  have hmbs : ds.volumeInfo.maximumBlockSize = blockDim := by rw [hm, hm3]
  have hvox : ds.volumeInfo.voxels = totalTreeSizeOf blockDim q := by rw [hv, hv3]
  have hx : ds.volumeInfo.voxels.x = (ds.volumeInfo.maximumBlockSize.x * 2 ^ d) % 2 ^ 32 := by
    rw [hvox, hmbs]
    simp only [totalTreeSizeOf, hqmod]
  have hy : ds.volumeInfo.voxels.y = (ds.volumeInfo.maximumBlockSize.y * 2 ^ d) % 2 ^ 32 := by
    rw [hvox, hmbs]
    simp only [totalTreeSizeOf, hqmod]
  have hz : ds.volumeInfo.voxels.z = (ds.volumeInfo.maximumBlockSize.z * 2 ^ d) % 2 ^ 32 := by
    rw [hvox, hmbs]
    simp only [totalTreeSizeOf, hqmod]
  refine ⟨blockResolution, d, hloop, hd, by rw [hmbs]; exact hdim, hx, hy, hz, ?_, ?_, ?_⟩
  · intro hlt
    rw [hx, Nat.mod_eq_of_lt hlt]
    exact ⟨rfl, Dvd.intro _ rfl⟩
  · intro hlt
    rw [hy, Nat.mod_eq_of_lt hlt]
    exact ⟨rfl, Dvd.intro _ rfl⟩
  · intro hlt
    rw [hz, Nat.mod_eq_of_lt hlt]
    exact ⟨rfl, Dvd.intro _ rfl⟩

/-- Witness for C7: a source of 1000 voxels on every axis with the default
budget of 64 MiB completes, and the conclusion of the amended claim holds
for the data source it yields. -/
theorem volume_extent_witness :
    ∃ ds, DataSource.new (SourceGeometry.box ⟨1000, 1000, 1000⟩ 1) 67108864 "" some
        (VolumeInformation.initial ⟨0, 0⟩ 1) 3 = some ds ∧
      ∃ blockResolution d,
        halvingLoop 67108864 3
          ((SourceGeometry.box ⟨1000, 1000, 1000⟩ 1).sizeInMicrometer.mul
            (SourceGeometry.box ⟨1000, 1000, 1000⟩ 1).resolution) 0
          = some (blockResolution, d) ∧
        d ≤ 31 ∧
        blockDimOf blockResolution = some ds.volumeInfo.maximumBlockSize ∧
        ds.volumeInfo.voxels.x = (ds.volumeInfo.maximumBlockSize.x * 2 ^ d) % 2 ^ 32 := by
  have hfull :
      (SourceGeometry.box ⟨1000, 1000, 1000⟩ 1).sizeInMicrometer.mul
        (SourceGeometry.box ⟨1000, 1000, 1000⟩ 1).resolution = ⟨1000, 1000, 1000⟩ := by
    simp [SourceGeometry.box, Vector3f.mul]
  have hloop : halvingLoop 67108864 3 ⟨1000, 1000, 1000⟩ 0 = some (⟨250, 250, 250⟩, 2) := by
    decide!
  have h250 := ceilToUInt32_natCast 250 (by norm_num)
  simp only [Nat.cast_ofNat] at h250
  have hdim : blockDimOf ⟨250, 250, 250⟩ = some ⟨248, 248, 248⟩ := by
    simp [blockDimOf, h250, alignBlockDim]
  have hq : treeQuotientOf 2 = some 4 := by
    simp [treeQuotientOf, shiftLeftOne]
  have hnew : ∃ ds, DataSource.new (SourceGeometry.box ⟨1000, 1000, 1000⟩ 1) 67108864 ""
      some (VolumeInformation.initial ⟨0, 0⟩ 1) 3 = some ds := by
    unfold DataSource.new
    simp only [hfull, hloop, hdim, hq]
    norm_num [SourceGeometry.box, totalTreeSizeOf, Vector3ui.toFloat, Vector3f.div,
      Vector3f.sub, AABBf.getSize, VolumeInformation.initial]
  obtain ⟨ds, hds⟩ := hnew
  obtain ⟨blockResolution, d, h1, h2, h3, h4, _⟩ :=
    volume_extent _ _ _ _ _ _ ds
      (fun i j hij => by simp only [Option.some.injEq] at hij; subst hij; exact ⟨rfl, rfl⟩) hds
  exact ⟨ds, hds, blockResolution, d, h1, h2, h3, h4⟩

/-- Within the range of `int32_t` the level from the bottom is the plain
difference. -/
theorem levelFromBottom_eq (rootNodeDepth refLevel : Nat)
    (hlevel : refLevel + 1 ≤ rootNodeDepth) (hshift : rootNodeDepth - 1 - refLevel ≤ 31) :
    levelFromBottom rootNodeDepth refLevel = ((rootNodeDepth - 1 - refLevel : Nat) : Int) := by
  unfold levelFromBottom wrapInt32
  omega

/-- The shift `1 << n` for a count of at most 30. -/
theorem shiftLeftOne_natCast (n : Nat) (h : n ≤ 30) :
    shiftLeftOne (n : Int) = some (2 ^ n) := by
  unfold shiftLeftOne
  rw [if_pos ⟨by omega, by omega⟩]
  simp

/-- The spacing set by `sample` when the shift count is between 0 and 30. -/
theorem sampleSpacing_eq (bbox : AABBf) (borders : Vector3f) (info : VolumeInformation)
    (node : LODNode)
    (hvox : info.voxels.x ≠ 0 ∧ info.voxels.y ≠ 0 ∧ info.voxels.z ≠ 0)
    (hlevel : node.refLevel + 1 ≤ info.rootNodeDepth)
    (hshift : info.rootNodeDepth - 1 - node.refLevel ≤ 30) :
    sampleSpacing bbox borders info node =
      some (Vector3f.splat ((baseSpacing bbox borders info).find_max *
        2 ^ (info.rootNodeDepth - 1 - node.refLevel))) := by
  unfold sampleSpacing
  rw [if_neg (by tauto), levelFromBottom_eq _ _ hlevel (by omega), shiftLeftOne_natCast _ hshift]
  simp [Vector3f.splat]

/-- What a normal completion of `sample` went through. -/
theorem Impl.sample_ok {σ β : Type} (p : Pipeline σ β) (bbox : AABBf) (borders : Vector3f)
    (node : LODNode) (info : VolumeInformation) (s s2 : σ) (block : MemoryUnit β)
    (h : Impl.sample p bbox borders node info s = some (.ok block, s2)) :
    ∃ s1 spacing size u,
      p.setTime node.timeStep s = (.ok u, s1) ∧
      sampleSpacing bbox borders info node = some spacing ∧
      sampleByteSize info = some size ∧
      p.update ⟨info.maximumBlockSize, spacing, sampleOrigin bbox borders node⟩ s1
        = (.ok block.buffer, s2) ∧
      block.size = size := by
  unfold Impl.sample at h
  split at h
  · simp at h
  · rename_i u s1 hset
    split at h
    · simp at h
    · simp at h
    · rename_i spacing size hsp hsz
      simp only at h
      split at h
      · simp at h
      · rename_i buffer s2' hup
        simp only [Option.some.injEq, Prod.mk.injEq, Except.ok.injEq] at h
        obtain ⟨rfl, rfl⟩ := h
        exact ⟨s1, spacing, size, u, hset, hsp, hsz, hup, rfl⟩

/-- C9: `getData` returns the block produced by `sample` when `sample`
completes normally and the null block whenever `sample` throws, whatever is
thrown; `getData` itself never throws, and the data source, its volume
information included, is the same after the call as before, so later
requests remain possible. -/
theorem getData_outcome {σ β : Type} (p : Pipeline σ β) (ds : DataSource) (node : LODNode)
    (s : σ) :
    (∀ block s1,
        Impl.sample p ds.source.boundingBox ds.borders node ds.volumeInfo s
          = some (.ok block, s1) →
        DataSource.getData p ds node s = some (.ok (some block), ds, s1)) ∧
      (∀ e s1,
        Impl.sample p ds.source.boundingBox ds.borders node ds.volumeInfo s
          = some (.error e, s1) →
        DataSource.getData p ds node s = some (.ok none, ds, s1)) ∧
      (∀ r, DataSource.getData p ds node s = some r →
        (∃ v, r.1 = .ok v) ∧ r.2.1 = ds ∧ r.2.1.volumeInfo = ds.volumeInfo) ∧
      ((DataSource.getData p ds node s).isSome =
        (Impl.sample p ds.source.boundingBox ds.borders node ds.volumeInfo s).isSome) := by
  unfold DataSource.getData
  refine ⟨?_, ?_, ?_, ?_⟩
  · intro block s1 h
    rw [h]
  · intro e s1 h
    rw [h]
    cases e <;> rfl
  · intro r h
    split at h
    · exact absurd h (by simp)
    · cases h; exact ⟨⟨_, rfl⟩, rfl, rfl⟩
    · cases h; exact ⟨⟨_, rfl⟩, rfl, rfl⟩
    · cases h; exact ⟨⟨_, rfl⟩, rfl, rfl⟩
  · split <;> simp_all

/-- Witness for C9: over a pipeline whose `setTime` throws a
`std::exception` for time step 20, `sample` throws and `getData` returns the
null block, leaving the data source as it was. -/
theorem getData_outcome_witness :
    Impl.sample Pipeline.recording (DataSource.unit 1).source.boundingBox
        (DataSource.unit 1).borders ⟨0, 20, ⟨0, 0, 0⟩⟩ (DataSource.unit 1).volumeInfo 0
        = some (.error (.stdException "no such frame"), 0) ∧
      DataSource.getData Pipeline.recording (DataSource.unit 1) ⟨0, 20, ⟨0, 0, 0⟩⟩ 0
        = some (.ok none, DataSource.unit 1, 0) :=
  have h : Impl.sample Pipeline.recording (DataSource.unit 1).source.boundingBox
        (DataSource.unit 1).borders ⟨0, 20, ⟨0, 0, 0⟩⟩ (DataSource.unit 1).volumeInfo 0
        = some (.error (.stdException "no such frame"), 0) := by
    simp [Impl.sample, Pipeline.recording]
  ⟨h, (getData_outcome Pipeline.recording (DataSource.unit 1) ⟨0, 20, ⟨0, 0, 0⟩⟩ 0).2.1 _ _ h⟩

/-- C10, as stated, fails: for a tree of depth 32 over the unit box with one
voxel per axis, the root node (level 0, at most `treeDepth - 1`) gets the
shift `1 << 31`, which is `-2 ^ 31` on `int`, so the spacing set is
`-2147483648` on every axis, while the claimed value is `2147483648`. -/
theorem sample_spacing_shift_overflow :
    (0 : Nat) ≤ 32 - 1 ∧
      sampleSpacing (DataSource.unit 32).source.boundingBox (DataSource.unit 32).borders
        (DataSource.unit 32).volumeInfo ⟨0, 0, ⟨0, 0, 0⟩⟩
        = some ⟨-2147483648, -2147483648, -2147483648⟩ ∧
      (baseSpacing (DataSource.unit 32).source.boundingBox (DataSource.unit 32).borders
        (DataSource.unit 32).volumeInfo).find_max * 2 ^ (32 - 1 - 0) = 2147483648 := by
  refine ⟨by norm_num, ?_, ?_⟩
  · have hl : levelFromBottom 32 0 = 31 := by decide
    norm_num [sampleSpacing, DataSource.unit, VolumeInformation.initial, hl, shiftLeftOne,
      baseSpacing, SourceGeometry.box, AABBf.getSize, Vector3f.sub, Vector3f.add,
      Vector3f.div, Vector3ui.toFloat, Vector3f.find_max]
  · norm_num [DataSource.unit, VolumeInformation.initial,
      baseSpacing, SourceGeometry.box, AABBf.getSize, Vector3f.sub, Vector3f.add,
      Vector3f.div, Vector3ui.toFloat, Vector3f.find_max]

/-- C10, amended: for a node whose level is at most `treeDepth - 1` and at
least `treeDepth - 31` (so that the shift count is between 0 and 30), and a
nonzero voxel extent, `sample` sets a spacing whose three components all
equal the largest over the axes of `(boundingBoxSize + border) /
totalTreeVoxels` times `2 ^ (treeDepth - 1 - level)`, and hands it to the
pipeline; a leaf node gets the factor 1, and the spacing at a level is
exactly twice the spacing at the next level. -/
theorem sample_spacing {σ β : Type} (p : Pipeline σ β) (bbox : AABBf) (borders : Vector3f)
    (info : VolumeInformation) (node : LODNode)
    (hvox : info.voxels.x ≠ 0 ∧ info.voxels.y ≠ 0 ∧ info.voxels.z ≠ 0)
    (hlevel : node.refLevel + 1 ≤ info.rootNodeDepth)
    (hshift : info.rootNodeDepth - 1 - node.refLevel ≤ 30) :
    sampleSpacing bbox borders info node =
        some (Vector3f.splat
          (max ((bbox.getSize.x + borders.x) / info.voxels.x)
              (max ((bbox.getSize.y + borders.y) / info.voxels.y)
                ((bbox.getSize.z + borders.z) / info.voxels.z)) *
            2 ^ (info.rootNodeDepth - 1 - node.refLevel))) ∧
      (∀ (s s2 : σ) (block : MemoryUnit β),
        Impl.sample p bbox borders node info s = some (.ok block, s2) →
        ∃ s1, p.update
          ⟨info.maximumBlockSize,
            Vector3f.splat
              (max ((bbox.getSize.x + borders.x) / info.voxels.x)
                  (max ((bbox.getSize.y + borders.y) / info.voxels.y)
                    ((bbox.getSize.z + borders.z) / info.voxels.z)) *
                2 ^ (info.rootNodeDepth - 1 - node.refLevel)),
            sampleOrigin bbox borders node⟩ s1 = (.ok block.buffer, s2)) ∧
      (node.refLevel + 1 = info.rootNodeDepth →
        sampleSpacing bbox borders info node =
          some (Vector3f.splat
            (max ((bbox.getSize.x + borders.x) / info.voxels.x)
              (max ((bbox.getSize.y + borders.y) / info.voxels.y)
                ((bbox.getSize.z + borders.z) / info.voxels.z))))) ∧
      (node.refLevel + 2 ≤ info.rootNodeDepth →
        ∃ v, sampleSpacing bbox borders info { node with refLevel := node.refLevel + 1 }
            = some (Vector3f.splat v) ∧
          sampleSpacing bbox borders info node = some (Vector3f.splat (2 * v))) := by
  have hbase : (baseSpacing bbox borders info).find_max =
      max ((bbox.getSize.x + borders.x) / info.voxels.x)
        (max ((bbox.getSize.y + borders.y) / info.voxels.y)
          ((bbox.getSize.z + borders.z) / info.voxels.z)) := by
    simp [baseSpacing, Vector3f.find_max, Vector3f.div, Vector3f.add, Vector3ui.toFloat]
  have hsp := sampleSpacing_eq bbox borders info node hvox hlevel hshift
  rw [hbase] at hsp
  refine ⟨hsp, ?_, ?_, ?_⟩
  · intro s s2 block h
    obtain ⟨s1, spacing, size, u, _, hspacing, _, hup, _⟩ := Impl.sample_ok _ _ _ _ _ _ _ _ h
    rw [hsp] at hspacing
    cases hspacing
    exact ⟨s1, hup⟩
  · intro hleaf
    rw [hsp]
    have : info.rootNodeDepth - 1 - node.refLevel = 0 := by omega
    rw [this, pow_zero, mul_one]
  · intro hnext
    have hsp1 := sampleSpacing_eq bbox borders info { node with refLevel := node.refLevel + 1 }
      hvox (by simpa using hnext) (by simp only; omega)
    rw [hbase] at hsp1
    refine ⟨_, hsp1, ?_⟩
    rw [hsp]
    have : info.rootNodeDepth - 1 - node.refLevel
        = (info.rootNodeDepth - 1 - (node.refLevel + 1)) + 1 := by omega
    simp only
    rw [this, pow_succ]
    congr 2
    ring

/-- Witness for C10: in a tree of depth 3 over the unit box with one voxel
per axis, the root node gets the spacing 4 on every axis. -/
theorem sample_spacing_witness :
    sampleSpacing (DataSource.unit 3).source.boundingBox (DataSource.unit 3).borders
        (DataSource.unit 3).volumeInfo ⟨0, 0, ⟨0, 0, 0⟩⟩ =
      some (Vector3f.splat
        (max (((DataSource.unit 3).source.boundingBox.getSize.x + (DataSource.unit 3).borders.x)
              / (DataSource.unit 3).volumeInfo.voxels.x)
            (max (((DataSource.unit 3).source.boundingBox.getSize.y
                    + (DataSource.unit 3).borders.y)
                  / (DataSource.unit 3).volumeInfo.voxels.y)
              (((DataSource.unit 3).source.boundingBox.getSize.z
                    + (DataSource.unit 3).borders.z)
                  / (DataSource.unit 3).volumeInfo.voxels.z)) *
          2 ^ ((DataSource.unit 3).volumeInfo.rootNodeDepth - 1 - 0))) :=
  (sample_spacing Pipeline.recording (DataSource.unit 3).source.boundingBox
    (DataSource.unit 3).borders (DataSource.unit 3).volumeInfo ⟨0, 0, ⟨0, 0, 0⟩⟩
    (by decide) (by decide) (by decide)).1

/-! ## Borders and final block size -/

/-- The Livre helper that succeeds and leaves the record as it is keeps the
voxel extent and the block size. -/
theorem some_keeps_extent (i j : VolumeInformation) (h : some i = some j) :
    j.voxels = i.voxels ∧ j.maximumBlockSize = i.maximumBlockSize := by
  simp only [Option.some.injEq] at h
  subst h
  exact ⟨rfl, rfl⟩

/-- The construction completes for a source of 1000 voxels on every axis
with the default budget. -/
theorem DataSource.new_cube_completes :
    ∃ ds, DataSource.new (SourceGeometry.box ⟨1000, 1000, 1000⟩ 1) 67108864 "" some
        (VolumeInformation.initial ⟨0, 0⟩ 1) 3 = some ds := by
  have hfull :
      (SourceGeometry.box ⟨1000, 1000, 1000⟩ 1).sizeInMicrometer.mul
        (SourceGeometry.box ⟨1000, 1000, 1000⟩ 1).resolution = ⟨1000, 1000, 1000⟩ := by
    simp [SourceGeometry.box, Vector3f.mul]
  have hloop : halvingLoop 67108864 3 ⟨1000, 1000, 1000⟩ 0 = some (⟨250, 250, 250⟩, 2) := by
    decide!
  have h250 := ceilToUInt32_natCast 250 (by norm_num)
  simp only [Nat.cast_ofNat] at h250
  have hdim : blockDimOf ⟨250, 250, 250⟩ = some ⟨248, 248, 248⟩ := by
    simp [blockDimOf, h250, alignBlockDim]
  have hq : treeQuotientOf 2 = some 4 := by
    simp [treeQuotientOf, shiftLeftOne]
  unfold DataSource.new
  simp only [hfull, hloop, hdim, hq]
  norm_num [SourceGeometry.box, totalTreeSizeOf, Vector3ui.toFloat, Vector3f.div,
    Vector3f.sub, AABBf.getSize, VolumeInformation.initial]

/-- C11, as stated, fails: for a flat source of 10 by 10 by 0 at resolution
1, the construction completes with the voxel extent `(8, 8, 0)` and the
borders `(-2, -2, 0)`; on the third axis the base spacing is the quotient
`0 / 0`, which is not `1 / resolution = 1` (the model reads it as 0), and
`sample` has no defined spacing. -/
theorem base_spacing_undefined_for_flat_box :
    (DataSource.new (SourceGeometry.box ⟨10, 10, 0⟩ 1) 67108864 "" some
        (VolumeInformation.initial ⟨0, 0⟩ 1) 1).map
        (fun ds => (ds.source.resolution.z, ds.volumeInfo.voxels, ds.borders,
          (baseSpacing ds.source.boundingBox ds.borders ds.volumeInfo).z,
          sampleSpacing ds.source.boundingBox ds.borders ds.volumeInfo ⟨0, 0, ⟨0, 0, 0⟩⟩)) =
      some (1, ⟨8, 8, 0⟩, ⟨-2, -2, 0⟩, 0, none) ∧ (0 : ℚ) ≠ 1 / 1 := by
  have hfull : (SourceGeometry.box ⟨10, 10, 0⟩ 1).sizeInMicrometer.mul
      (SourceGeometry.box ⟨10, 10, 0⟩ 1).resolution = ⟨10, 10, 0⟩ := by
    simp [SourceGeometry.box, Vector3f.mul]
  have hloop : halvingLoop 67108864 1 ⟨10, 10, 0⟩ 0 = some (⟨10, 10, 0⟩, 0) := by
    decide!
  have h10 := ceilToUInt32_natCast 10 (by norm_num)
  have h0 := ceilToUInt32_natCast 0 (by norm_num)
  simp only [Nat.cast_ofNat, Nat.cast_zero] at h10 h0
  have hdim : blockDimOf ⟨10, 10, 0⟩ = some ⟨8, 8, 0⟩ := by
    simp [blockDimOf, h10, h0, alignBlockDim]
  have hq : treeQuotientOf 0 = some 1 := by
    simp [treeQuotientOf, shiftLeftOne]
  refine ⟨?_, by norm_num⟩
  unfold DataSource.new
  simp only [hfull, hloop, hdim, hq]
  norm_num [SourceGeometry.box, totalTreeSizeOf, Vector3ui.toFloat, Vector3f.div,
    Vector3f.sub, AABBf.getSize, VolumeInformation.initial, baseSpacing, sampleSpacing,
    Vector3f.add]

/-- C11, amended: when the construction completes (with a Livre helper that
leaves the voxel extent as set), the resolution is nonzero on each axis and
the border satisfies `(boundingBoxSize + border) * resolution =
totalTreeSize` on each axis; on every axis whose total voxel extent is
nonzero the base spacing `(boundingBoxSize + border) / totalTreeVoxels` used
by `sample` equals `1 / resolution`; and the padded box, from the block
origin at relative position 0 to the one at relative position 1, has the
extent `boundingBoxSize + border` and is centered on the center of the
bounding box. -/
theorem border_maps_tree (src : SourceGeometry) (maxBlockByteSize : Nat)
    (description : String)
    (fillRegularVolumeInfo : VolumeInformation → Option VolumeInformation)
    (info0 : VolumeInformation) (fuel : Nat) (ds : DataSource)
    (hfill : ∀ i j, fillRegularVolumeInfo i = some j →
      j.voxels = i.voxels ∧ j.maximumBlockSize = i.maximumBlockSize)
    (h : DataSource.new src maxBlockByteSize description fillRegularVolumeInfo info0 fuel
      = some ds) :
    (src.resolution.x ≠ 0 ∧ src.resolution.y ≠ 0 ∧ src.resolution.z ≠ 0) ∧
      (src.boundingBox.getSize.x + ds.borders.x) * src.resolution.x
        = ds.volumeInfo.voxels.x ∧
      (src.boundingBox.getSize.y + ds.borders.y) * src.resolution.y
        = ds.volumeInfo.voxels.y ∧
      (src.boundingBox.getSize.z + ds.borders.z) * src.resolution.z
        = ds.volumeInfo.voxels.z ∧
      (ds.volumeInfo.voxels.x ≠ 0 →
        (baseSpacing src.boundingBox ds.borders ds.volumeInfo).x = 1 / src.resolution.x) ∧
      (ds.volumeInfo.voxels.y ≠ 0 →
        (baseSpacing src.boundingBox ds.borders ds.volumeInfo).y = 1 / src.resolution.y) ∧
      (ds.volumeInfo.voxels.z ≠ 0 →
        (baseSpacing src.boundingBox ds.borders ds.volumeInfo).z = 1 / src.resolution.z) ∧
      (∀ refLevel timeStep,
        ((sampleOrigin src.boundingBox ds.borders ⟨refLevel, timeStep, ⟨0, 0, 0⟩⟩).add
          (sampleOrigin src.boundingBox ds.borders ⟨refLevel, timeStep, ⟨1, 1, 1⟩⟩)).divScalar 2
          = src.boundingBox.getCenter ∧
        sampleOrigin src.boundingBox ds.borders ⟨refLevel, timeStep, ⟨1, 1, 1⟩⟩
          = (sampleOrigin src.boundingBox ds.borders ⟨refLevel, timeStep, ⟨0, 0, 0⟩⟩).add
              (src.boundingBox.getSize.add ds.borders)) := by
  obtain ⟨blockResolution, d, blockDim, q, info3, _, _, _, hres, hf, hb, _, hv, _, _⟩ :=
    DataSource.new_some _ _ _ _ _ _ _ h
  obtain ⟨hv3, _⟩ := hfill _ _ hf
  simp only at hv3
  have hvox : ds.volumeInfo.voxels = totalTreeSizeOf blockDim q := by rw [hv, hv3]
  obtain ⟨hrx, hry, hrz⟩ := hres
  have hbx : ds.borders.x = (ds.volumeInfo.voxels.x : ℚ) / src.resolution.x
      - src.boundingBox.getSize.x := by
    rw [hb, hvox]; rfl
  have hby : ds.borders.y = (ds.volumeInfo.voxels.y : ℚ) / src.resolution.y
      - src.boundingBox.getSize.y := by
    rw [hb, hvox]; rfl
  have hbz : ds.borders.z = (ds.volumeInfo.voxels.z : ℚ) / src.resolution.z
      - src.boundingBox.getSize.z := by
    rw [hb, hvox]; rfl
  have hsx : (baseSpacing src.boundingBox ds.borders ds.volumeInfo).x =
      (src.boundingBox.getSize.x + ds.borders.x) / ds.volumeInfo.voxels.x := rfl
  have hsy : (baseSpacing src.boundingBox ds.borders ds.volumeInfo).y =
      (src.boundingBox.getSize.y + ds.borders.y) / ds.volumeInfo.voxels.y := rfl
  have hsz : (baseSpacing src.boundingBox ds.borders ds.volumeInfo).z =
      (src.boundingBox.getSize.z + ds.borders.z) / ds.volumeInfo.voxels.z := rfl
  refine ⟨⟨hrx, hry, hrz⟩, ?_, ?_, ?_, ?_, ?_, ?_, ?_⟩
  · rw [hbx]; field_simp; ring
  · rw [hby]; field_simp; ring
  · rw [hbz]; field_simp; ring
  · intro hne
    have : (ds.volumeInfo.voxels.x : ℚ) ≠ 0 := by exact_mod_cast hne
    rw [hsx, hbx]; field_simp; ring
  · intro hne
    have : (ds.volumeInfo.voxels.y : ℚ) ≠ 0 := by exact_mod_cast hne
    rw [hsy, hby]; field_simp; ring
  · intro hne
    have : (ds.volumeInfo.voxels.z : ℚ) ≠ 0 := by exact_mod_cast hne
    rw [hsz, hbz]; field_simp; ring
  · intro refLevel timeStep
    constructor
    · simp only [sampleOrigin, AABBf.getCenter, AABBf.getSize, Vector3f.add, Vector3f.sub,
        Vector3f.mul, Vector3f.divScalar, Vector3f.mk.injEq]
      refine ⟨?_, ?_, ?_⟩ <;> ring
    · simp only [sampleOrigin, AABBf.getSize, Vector3f.add, Vector3f.sub,
        Vector3f.mul, Vector3f.divScalar, Vector3f.mk.injEq]
      refine ⟨?_, ?_, ?_⟩ <;> ring

/-- Witness for C11: for the source of 1000 voxels on every axis the
construction completes and the border maps the tree onto the box on the
first axis. -/
theorem border_maps_tree_witness :
    ∃ ds, DataSource.new (SourceGeometry.box ⟨1000, 1000, 1000⟩ 1) 67108864 "" some
        (VolumeInformation.initial ⟨0, 0⟩ 1) 3 = some ds ∧
      ((SourceGeometry.box ⟨1000, 1000, 1000⟩ 1).boundingBox.getSize.x + ds.borders.x) *
        (SourceGeometry.box ⟨1000, 1000, 1000⟩ 1).resolution.x = ds.volumeInfo.voxels.x := by
  obtain ⟨ds, hds⟩ := DataSource.new_cube_completes
  exact ⟨ds, hds, (border_maps_tree _ _ _ _ _ _ ds some_keeps_extent hds).2.1⟩

/-- The alignment never raises a dimension. -/
theorem alignBlockDim_le (c : Nat) : alignBlockDim c ≤ c := by
  unfold alignBlockDim
  split
  · exact Nat.sub_le _ _
  · exact le_rfl

/-- The aligned ceiling of a value below 2048 is at most 2048, at most the
ceiling, and less than the value plus 1. -/
theorem alignBlockDim_ceil_bounds (q : ℚ) (h0 : 0 ≤ ⌈q⌉) (hq : q < 2048) :
    alignBlockDim ⌈q⌉.toNat ≤ 2048 ∧ alignBlockDim ⌈q⌉.toNat ≤ ⌈q⌉.toNat ∧
      ((alignBlockDim ⌈q⌉.toNat : Nat) : ℚ) < q + 1 := by
  have hle := alignBlockDim_le ⌈q⌉.toNat
  have hceil : ⌈q⌉ ≤ 2048 := Int.ceil_le.mpr (by exact_mod_cast le_of_lt hq)
  have hnat : ⌈q⌉.toNat ≤ 2048 := by omega
  refine ⟨le_trans hle hnat, hle, ?_⟩
  have h1 : ((alignBlockDim ⌈q⌉.toNat : Nat) : ℚ) ≤ ((⌈q⌉.toNat : Nat) : ℚ) := by
    exact_mod_cast hle
  have h2 : ((⌈q⌉.toNat : Nat) : ℚ) = ((⌈q⌉ : ℤ) : ℚ) := by
    have : ((⌈q⌉.toNat : Nat) : ℤ) = ⌈q⌉ := Int.toNat_of_nonneg h0
    exact_mod_cast congrArg (fun z : ℤ => (z : ℚ)) this
  have h3 : ((⌈q⌉ : ℤ) : ℚ) < q + 1 := Int.ceil_lt_add_one q
  linarith

/-- C15, as stated, fails: for a source of `4095/2` by `1/2` by `1/2` voxels
and a budget of 512 the loop exits at once (the product `511.875` is below
512 and every component below 2048), and the stored block size is
`(2048, 1, 1)`: its first dimension is not below 2048 and its product 2048
is not below 512. -/
theorem block_size_exceeds_loop_bounds :
    halvingLoop 512 1 ⟨4095 / 2, 1 / 2, 1 / 2⟩ 0 = some (⟨4095 / 2, 1 / 2, 1 / 2⟩, 0) ∧
      (DataSource.new (SourceGeometry.box ⟨4095 / 2, 1 / 2, 1 / 2⟩ 1) 512 "" some
          (VolumeInformation.initial ⟨0, 0⟩ 1) 1).map
          (fun ds => ds.volumeInfo.maximumBlockSize) = some ⟨2048, 1, 1⟩ ∧
      ¬ ((2048 : Nat) < 2048) ∧ ¬ ((2048 : Nat) * 1 * 1 < 512) := by
  have hfull : (SourceGeometry.box ⟨4095 / 2, 1 / 2, 1 / 2⟩ 1).sizeInMicrometer.mul
      (SourceGeometry.box ⟨4095 / 2, 1 / 2, 1 / 2⟩ 1).resolution
        = ⟨4095 / 2, 1 / 2, 1 / 2⟩ := by
    simp [SourceGeometry.box, Vector3f.mul]
  have hloop : halvingLoop 512 1 ⟨4095 / 2, 1 / 2, 1 / 2⟩ 0
      = some (⟨4095 / 2, 1 / 2, 1 / 2⟩, 0) := by
    decide!
  have hc1 : ⌈(4095 / 2 : ℚ)⌉ = 2048 := by
    rw [Int.ceil_eq_iff]
    norm_num
  have hc2 : ⌈(1 / 2 : ℚ)⌉ = 1 := by
    rw [Int.ceil_eq_iff]
    norm_num
  have hdim : blockDimOf ⟨4095 / 2, 1 / 2, 1 / 2⟩ = some ⟨2048, 1, 1⟩ := by
    have t1 : Int.toNat 2048 = 2048 := rfl
    have t2 : Int.toNat 1 = 1 := rfl
    simp only [blockDimOf, ceilToUInt32, hc1, hc2]
    norm_num [alignBlockDim, t1, t2]
  have hq : treeQuotientOf 0 = some 1 := by
    simp [treeQuotientOf, shiftLeftOne]
  refine ⟨hloop, ?_, by norm_num, by norm_num⟩
  unfold DataSource.new
  simp only [hfull, hloop, hdim, hq]
  norm_num [SourceGeometry.box, totalTreeSizeOf, Vector3ui.toFloat, Vector3f.div,
    Vector3f.sub, AABBf.getSize, VolumeInformation.initial]

/-- C15, amended: when the construction completes (with a Livre helper that
leaves the block size as set), the candidate on which the loop exited has a
`float` product below `maxBlockByteSize` converted to `float` and components
below 2048, and every stored block dimension is at most 2048 and less than
the corresponding component of that candidate plus 1; the product of the
block dimensions is not bounded by `maxBlockByteSize`. -/
theorem block_size_bounds (src : SourceGeometry) (maxBlockByteSize : Nat)
    (description : String)
    (fillRegularVolumeInfo : VolumeInformation → Option VolumeInformation)
    (info0 : VolumeInformation) (fuel : Nat) (ds : DataSource)
    (hfill : ∀ i j, fillRegularVolumeInfo i = some j →
      j.voxels = i.voxels ∧ j.maximumBlockSize = i.maximumBlockSize)
    (h : DataSource.new src maxBlockByteSize description fillRegularVolumeInfo info0 fuel
      = some ds) :
    ∃ blockResolution d,
      halvingLoop maxBlockByteSize fuel (src.sizeInMicrometer.mul src.resolution) 0
        = some (blockResolution, d) ∧
      (floatProduct blockResolution).lt (FloatValue.ofRat maxBlockByteSize) = true ∧
      blockResolution.x < 2048 ∧ blockResolution.y < 2048 ∧ blockResolution.z < 2048 ∧
      ds.volumeInfo.maximumBlockSize.x ≤ 2048 ∧
      ds.volumeInfo.maximumBlockSize.y ≤ 2048 ∧
      ds.volumeInfo.maximumBlockSize.z ≤ 2048 ∧
      (ds.volumeInfo.maximumBlockSize.x : ℚ) < blockResolution.x + 1 ∧
      (ds.volumeInfo.maximumBlockSize.y : ℚ) < blockResolution.y + 1 ∧
      (ds.volumeInfo.maximumBlockSize.z : ℚ) < blockResolution.z + 1 := by
  obtain ⟨blockResolution, d, blockDim, q, info3, hloop, hdim, _, _, hf, _, _, _, hm, _⟩ :=
    DataSource.new_some _ _ _ _ _ _ _ h
  obtain ⟨_, hm3⟩ := hfill _ _ hf
  simp only at hm3
  have hmbs : ds.volumeInfo.maximumBlockSize = blockDim := by rw [hm, hm3]
  obtain ⟨n, _, hb, hfit, _⟩ := halvingLoop_some _ _ _ _ _ hloop
  have hfit2 := (fitsBlock_iff _ _).mp hfit
  simp only at hfit2
  obtain ⟨hx, hy, hz, hbd⟩ := blockDimOf_some _ _ hdim
  obtain ⟨ax1, _, ax3⟩ := alignBlockDim_ceil_bounds _ hx.1 hfit2.2.1
  obtain ⟨ay1, _, ay3⟩ := alignBlockDim_ceil_bounds _ hy.1 hfit2.2.2.1
  obtain ⟨az1, _, az3⟩ := alignBlockDim_ceil_bounds _ hz.1 hfit2.2.2.2
  rw [hmbs, hbd]
  exact ⟨blockResolution, d, hloop, hfit2.1, hfit2.2.1, hfit2.2.2.1, hfit2.2.2.2,
    ax1, ay1, az1, ax3, ay3, az3⟩

/-- Witness for C15: for the source of 1000 voxels on every axis the
construction completes and the stored block size is at most 2048 on the
first axis. -/
theorem block_size_bounds_witness :
    ∃ ds, DataSource.new (SourceGeometry.box ⟨1000, 1000, 1000⟩ 1) 67108864 "" some
        (VolumeInformation.initial ⟨0, 0⟩ 1) 3 = some ds ∧
      ds.volumeInfo.maximumBlockSize.x ≤ 2048 := by
  obtain ⟨ds, hds⟩ := DataSource.new_cube_completes
  obtain ⟨_, _, _, _, _, _, _, hx, _⟩ :=
    block_size_bounds _ _ _ _ _ _ ds some_keeps_extent hds
  exact ⟨ds, hds, hx⟩

/-! ## Single-precision rounding -/

/-- The rounding of `t` is at least its floor. -/
theorem roundHalfEven_ge_floor (t : ℚ) : ⌊t⌋ ≤ roundHalfEven t := by
  unfold roundHalfEven
  split_ifs <;> omega

/-- The rounding of `t` is at most its ceiling. -/
theorem roundHalfEven_le_ceil (t : ℚ) : roundHalfEven t ≤ ⌈t⌉ := by
  unfold roundHalfEven
  by_cases h : t - ⌊t⌋ < 1 / 2
  · rw [if_pos h]
    exact Int.floor_le_ceil t
  · have hne : (⌊t⌋ : ℚ) ≠ t := by
      intro heq
      rw [heq, sub_self] at h
      exact h (by norm_num)
    have hlt : (⌊t⌋ : ℚ) < t := lt_of_le_of_ne (Int.floor_le t) hne
    have hceil : ⌊t⌋ + 1 ≤ ⌈t⌉ := by
      have : ⌊t⌋ < ⌈t⌉ := by
        rw [Int.lt_ceil]
        exact hlt
      omega
    rw [if_neg h]
    split_ifs <;> omega

/-- An integer at or below `t` is at or below the rounding of `t`. -/
theorem le_roundHalfEven (t : ℚ) (k : ℤ) (h : (k : ℚ) ≤ t) : k ≤ roundHalfEven t :=
  le_trans (Int.le_floor.mpr h) (roundHalfEven_ge_floor t)

/-- An integer at or above `t` is at or above the rounding of `t`. -/
theorem roundHalfEven_le (t : ℚ) (k : ℤ) (h : t ≤ (k : ℚ)) : roundHalfEven t ≤ k :=
  le_trans (roundHalfEven_le_ceil t) (Int.ceil_le.mpr h)

/-- A multiple of the unit in the last place at or below `q` is at or below
the `float` nearest to `q`. -/
theorem le_roundToFloat (q : ℚ) (k : ℤ) (h : (k : ℚ) * 2 ^ floatUlpExponent q ≤ q) :
    (k : ℚ) * 2 ^ floatUlpExponent q ≤ roundToFloat q := by
  have hu : (0 : ℚ) < 2 ^ floatUlpExponent q := zpow_pos (by norm_num) _
  unfold roundToFloat
  apply mul_le_mul_of_nonneg_right _ (le_of_lt hu)
  have : (k : ℚ) ≤ q / 2 ^ floatUlpExponent q := (le_div_iff₀ hu).mpr h
  exact_mod_cast le_roundHalfEven _ k this

/-- A multiple of the unit in the last place at or above `q` is at or above
the `float` nearest to `q`. -/
theorem roundToFloat_le (q : ℚ) (k : ℤ) (h : q ≤ (k : ℚ) * 2 ^ floatUlpExponent q) :
    roundToFloat q ≤ (k : ℚ) * 2 ^ floatUlpExponent q := by
  have hu : (0 : ℚ) < 2 ^ floatUlpExponent q := zpow_pos (by norm_num) _
  unfold roundToFloat
  apply mul_le_mul_of_nonneg_right _ (le_of_lt hu)
  have : q / 2 ^ floatUlpExponent q ≤ (k : ℚ) := (div_le_iff₀ hu).mpr h
  exact_mod_cast roundHalfEven_le _ k this

/-- Rounding keeps a non-negative value non-negative. -/
theorem roundToFloat_nonneg (q : ℚ) (h : 0 ≤ q) : 0 ≤ roundToFloat q := by
  have := le_roundToFloat q 0 (by simpa using h)
  simpa using this

/-- With enough fuel the halving count brackets `n` between two powers of
two. -/
theorem bitLengthAux_spec (fuel n : Nat) (hn : 1 ≤ n) (hf : n < 2 ^ fuel) :
    2 ^ bitLengthAux fuel n ≤ n ∧ n < 2 ^ (bitLengthAux fuel n + 1) := by
  induction fuel generalizing n with
  | zero => simp at hf; omega
  | succ fuel ih =>
    rw [bitLengthAux]
    by_cases h2 : n < 2
    · rw [if_pos h2]
      simp
      omega
    · rw [if_neg h2]
      have hhalf : n / 2 < 2 ^ fuel := by
        rw [pow_succ] at hf
        omega
      obtain ⟨h1, h3⟩ := ih (n / 2) (by omega) hhalf
      rw [pow_succ, pow_succ]
      rw [pow_succ] at h3
      constructor <;> omega

/-- The integer binary logarithm brackets `n` between two powers of two. -/
theorem floorLog2_spec (n : Nat) (hn : 1 ≤ n) :
    2 ^ floorLog2 n ≤ n ∧ n < 2 ^ (floorLog2 n + 1) :=
  bitLengthAux_spec n n hn (Nat.lt_two_pow n)

/-- The exponent chosen for the quotient `a / b` of positive naturals is a
lower binary bound of the quotient. -/
theorem two_zpow_exponent_le (a b : Nat) (ha : 1 ≤ a) (hb : 1 ≤ b) :
    (2 : ℚ) ^ (if b * 2 ^ floorLog2 a ≤ a * 2 ^ floorLog2 b then
        (floorLog2 a : ℤ) - floorLog2 b else (floorLog2 a : ℤ) - floorLog2 b - 1)
      ≤ (a : ℚ) / b := by
  obtain ⟨ha1, _⟩ := floorLog2_spec a ha
  obtain ⟨_, hb2⟩ := floorLog2_spec b hb
  have hbpos : (0 : ℚ) < b := by exact_mod_cast hb
  split_ifs with hc
  · rw [zpow_sub₀ (by norm_num), zpow_natCast, zpow_natCast]
    rw [div_le_div_iff₀ (by positivity) hbpos]
    have : ((b * 2 ^ floorLog2 a : ℕ) : ℚ) ≤ ((a * 2 ^ floorLog2 b : ℕ) : ℚ) := by
      exact_mod_cast hc
    push_cast at this
    linarith
  · rw [sub_sub, zpow_sub₀ (by norm_num)]
    have hexp : ((floorLog2 b : ℤ) + 1) = ((floorLog2 b + 1 : ℕ) : ℤ) := by push_cast; rfl
    rw [hexp, zpow_natCast, zpow_natCast]
    rw [div_le_div_iff₀ (by positivity) hbpos]
    have h1 : ((2 ^ floorLog2 a : ℕ) : ℚ) ≤ (a : ℚ) := by exact_mod_cast ha1
    have h2 : ((b : ℕ) : ℚ) ≤ ((2 ^ (floorLog2 b + 1) : ℕ) : ℚ) := by
      exact_mod_cast le_of_lt hb2
    push_cast at h1 h2
    have h3 : (0 : ℚ) ≤ (a : ℚ) := by positivity
    calc (2 : ℚ) ^ floorLog2 a * b
        ≤ (a : ℚ) * b := mul_le_mul_of_nonneg_right h1 (le_of_lt hbpos)
      _ ≤ (a : ℚ) * 2 ^ (floorLog2 b + 1) := mul_le_mul_of_nonneg_left h2 h3

/-- The binary exponent of a positive rational gives a power of two at or
below it. -/
theorem two_zpow_binaryExponent_le (q : ℚ) (hq : 0 < q) : (2 : ℚ) ^ binaryExponent q ≤ q := by
  have hnum : 0 < q.num := Rat.num_pos.mpr hq
  have hden : 1 ≤ q.den := q.den_pos
  have ha : 1 ≤ q.num.natAbs := by omega
  have hcast : ((q.num.natAbs : ℕ) : ℚ) = (q.num : ℚ) := by
    have h0 : ((q.num.natAbs : ℤ)) = q.num := Int.natAbs_of_nonneg (le_of_lt hnum)
    rw [← Int.cast_natCast, h0]
  have hqeq : (q.num.natAbs : ℚ) / (q.den : ℚ) = q := by
    rw [hcast]
    exact Rat.num_div_den q
  have h := two_zpow_exponent_le q.num.natAbs q.den ha hden
  rw [hqeq] at h
  exact h

/-- Zero is a `float`. -/
theorem roundToFloat_zero : roundToFloat 0 = 0 := by
  decide!

/-- Rounding keeps a non-negative value at or below a power of two (from
`2 ^ (-149)` on) at or below it. -/
theorem roundToFloat_le_two_zpow (q : ℚ) (m : ℤ) (hm : -149 ≤ m) (h0 : 0 ≤ q)
    (hq : q ≤ 2 ^ m) : roundToFloat q ≤ 2 ^ m := by
  rcases eq_or_lt_of_le h0 with hz | hpos
  · rw [← hz, roundToFloat_zero]
    positivity
  · have hE : floatUlpExponent q ≤ m := by
      have hle := le_trans (two_zpow_binaryExponent_le q hpos) hq
      have : binaryExponent q ≤ m :=
        (zpow_le_zpow_iff_right₀ (by norm_num : (1 : ℚ) < 2)).mp hle
      unfold floatUlpExponent
      exact max_le (by omega) hm
    have hgrid : (2 : ℚ) ^ m = ((2 ^ (m - floatUlpExponent q).toNat : ℤ) : ℚ) *
        2 ^ floatUlpExponent q := by
      have hd : ((m - floatUlpExponent q).toNat : ℤ) = m - floatUlpExponent q :=
        Int.toNat_of_nonneg (by omega)
      push_cast
      rw [← zpow_natCast, hd, ← zpow_add₀ (by norm_num)]
      congr 1
      ring
    rw [hgrid]
    apply roundToFloat_le
    rw [← hgrid]
    exact hq

/-- Rounding keeps a value of at least 1 at or above 1. -/
theorem one_le_roundToFloat (q : ℚ) (hq : 1 ≤ q) : 1 ≤ roundToFloat q := by
  have hpos : 0 < q := lt_of_lt_of_le one_pos hq
  by_cases hE : floatUlpExponent q ≤ 0
  · have hgrid : (1 : ℚ) = ((2 ^ (-floatUlpExponent q).toNat : ℤ) : ℚ) *
        2 ^ floatUlpExponent q := by
      have hd : ((-floatUlpExponent q).toNat : ℤ) = -floatUlpExponent q :=
        Int.toNat_of_nonneg (by omega)
      push_cast
      rw [← zpow_natCast, hd, ← zpow_add₀ (by norm_num)]
      simp
    rw [hgrid]
    apply le_roundToFloat
    rw [← hgrid]
    exact hq
  · have hEq : floatUlpExponent q = binaryExponent q - 23 := by
      unfold floatUlpExponent at hE ⊢
      rw [max_eq_left]
      by_contra hcon
      rw [max_eq_right (by omega)] at hE
      omega
    have hgrid : (2 : ℚ) ^ binaryExponent q = (((2 : ℤ) ^ 23 : ℤ) : ℚ) *
        2 ^ floatUlpExponent q := by
      have h23 : (2 : ℚ) ^ (23 : ℤ) = 8388608 := by norm_num
      rw [hEq, zpow_sub₀ (by norm_num), h23]
      push_cast
      field_simp
    have hle : (2 : ℚ) ^ binaryExponent q ≤ roundToFloat q := by
      rw [hgrid]
      apply le_roundToFloat
      rw [← hgrid]
      exact two_zpow_binaryExponent_le q hpos
    have hone : (1 : ℚ) ≤ 2 ^ binaryExponent q :=
      one_le_zpow₀ (by norm_num) (by omega)
    exact le_trans hone hle

/-! ## Termination of the halving loop -/

/-- The `float` result of a non-negative exact result is an infinity or a
non-negative number. -/
theorem FloatValue.ofRat_nonneg (q : ℚ) (h : 0 ≤ q) :
    FloatValue.ofRat q = .posInf ∨ ∃ r, 0 ≤ r ∧ FloatValue.ofRat q = .finite r := by
  have hr := roundToFloat_nonneg q h
  unfold FloatValue.ofRat
  by_cases h1 : 2 ^ 128 ≤ roundToFloat q
  · left
    rw [if_pos h1]
  · right
    rw [if_neg h1, if_neg (by linarith)]
    exact ⟨_, hr, rfl⟩

/-- The `float` result of an exact result between 0 and a power of two
below `2 ^ 128` is a number between 0 and that power. -/
theorem FloatValue.ofRat_le_two_zpow (q : ℚ) (m : ℤ) (hm : -149 ≤ m) (hm2 : m ≤ 127)
    (h0 : 0 ≤ q) (hq : q ≤ 2 ^ m) :
    ∃ r, 0 ≤ r ∧ r ≤ 2 ^ m ∧ FloatValue.ofRat q = .finite r := by
  have hr := roundToFloat_nonneg q h0
  have hle := roundToFloat_le_two_zpow q m hm h0 hq
  have hlt : (2 : ℚ) ^ m < 2 ^ 128 := by
    have : (2 : ℚ) ^ m ≤ 2 ^ (127 : ℤ) := zpow_le_zpow_right₀ (by norm_num) hm2
    have h127 : (2 : ℚ) ^ (127 : ℤ) < 2 ^ 128 := by norm_num
    linarith
  unfold FloatValue.ofRat
  rw [if_neg (by linarith), if_neg (by linarith)]
  exact ⟨_, hr, hle, rfl⟩

/-- The `float` product of three components between 0 and 1/2 is a number
between 0 and 1/8. -/
theorem floatProduct_small (v : Vector3f)
    (hx : 0 ≤ v.x ∧ v.x ≤ 1 / 2) (hy : 0 ≤ v.y ∧ v.y ≤ 1 / 2) (hz : 0 ≤ v.z ∧ v.z ≤ 1 / 2) :
    ∃ r, 0 ≤ r ∧ r ≤ 1 / 8 ∧ floatProduct v = .finite r := by
  have hxy0 : 0 ≤ v.x * v.y := mul_nonneg hx.1 hy.1
  have hxy : v.x * v.y ≤ 2 ^ (-2 : ℤ) := by
    have : v.x * v.y ≤ 1 / 2 * (1 / 2) := mul_le_mul hx.2 hy.2 hy.1 (by norm_num)
    have h4 : (2 : ℚ) ^ (-2 : ℤ) = 1 / 4 := by norm_num
    rw [h4]
    linarith
  obtain ⟨r1, hr0, hr1, he1⟩ :=
    FloatValue.ofRat_le_two_zpow _ (-2) (by norm_num) (by norm_num) hxy0 hxy
  have hrz0 : 0 ≤ r1 * v.z := mul_nonneg hr0 hz.1
  have hrz : r1 * v.z ≤ 2 ^ (-3 : ℤ) := by
    have h4 : (2 : ℚ) ^ (-2 : ℤ) = 1 / 4 := by norm_num
    have h8 : (2 : ℚ) ^ (-3 : ℤ) = 1 / 8 := by norm_num
    rw [h4] at hr1
    have : r1 * v.z ≤ 1 / 4 * (1 / 2) := mul_le_mul hr1 hz.2 hz.1 (by norm_num)
    rw [h8]
    linarith
  obtain ⟨r2, hs0, hs1, he2⟩ :=
    FloatValue.ofRat_le_two_zpow _ (-3) (by norm_num) (by norm_num) hrz0 hrz
  have h8 : (2 : ℚ) ^ (-3 : ℤ) = 1 / 8 := by norm_num
  rw [h8] at hs1
  refine ⟨r2, hs0, hs1, ?_⟩
  unfold floatProduct
  rw [he1]
  simp only [FloatValue.mul]
  exact he2

/-- The `float` budget for a byte budget of at least 1 is an infinity or a
number of at least 1. -/
theorem FloatValue.ofRat_budget (n : Nat) (hn : 1 ≤ n) :
    FloatValue.ofRat n = .posInf ∨ ∃ r, 1 ≤ r ∧ FloatValue.ofRat n = .finite r := by
  have h1 : (1 : ℚ) ≤ n := by exact_mod_cast hn
  have hr := one_le_roundToFloat _ h1
  unfold FloatValue.ofRat
  by_cases h2 : 2 ^ 128 ≤ roundToFloat n
  · left
    rw [if_pos h2]
  · right
    rw [if_neg h2, if_neg (by linarith)]
    exact ⟨_, hr, rfl⟩

/-- A candidate with components between 0 and 1/2 passes the exit test
under any byte budget of at least 1. -/
theorem fitsBlock_small (maxBlockByteSize : Nat) (v : Vector3f) (hB : 1 ≤ maxBlockByteSize)
    (hx : 0 ≤ v.x ∧ v.x ≤ 1 / 2) (hy : 0 ≤ v.y ∧ v.y ≤ 1 / 2) (hz : 0 ≤ v.z ∧ v.z ≤ 1 / 2) :
    fitsBlock maxBlockByteSize v = true := by
  rw [fitsBlock_iff]
  obtain ⟨r, hr0, hr1, hp⟩ := floatProduct_small v hx hy hz
  refine ⟨?_, by linarith [hx.2], by linarith [hy.2], by linarith [hz.2]⟩
  rw [hp]
  rcases FloatValue.ofRat_budget maxBlockByteSize hB with hb | ⟨b, hb1, hb⟩
  · rw [hb]
    rfl
  · rw [hb]
    simp only [FloatValue.lt, decide_eq_true_eq]
    linarith

/-- From some number of halvings on, a non-negative extent has components
of at most 1/2, a voxel product below any byte budget of at least 1, and
passes the exit test. -/
theorem exists_halvings_fit (maxBlockByteSize : Nat) (v : Vector3f)
    (hx : 0 ≤ v.x) (hy : 0 ≤ v.y) (hz : 0 ≤ v.z) (hB : 1 ≤ maxBlockByteSize) :
    ∃ k, ∀ j, k ≤ j →
      (v.divScalar (2 ^ j)).product < maxBlockByteSize ∧
      (v.divScalar (2 ^ j)).x < 2048 ∧ (v.divScalar (2 ^ j)).y < 2048 ∧
      (v.divScalar (2 ^ j)).z < 2048 ∧
      fitsBlock maxBlockByteSize (v.divScalar (2 ^ j)) = true := by
  obtain ⟨n, hn⟩ := exists_nat_gt (max v.x (max v.y v.z))
  have hpow : (n : ℚ) < 2 ^ n := by exact_mod_cast Nat.lt_two_pow n
  have hlt : max v.x (max v.y v.z) < 2 ^ n := lt_trans hn hpow
  have hxl : v.x < 2 ^ n := lt_of_le_of_lt (le_max_left _ _) hlt
  have hyl : v.y < 2 ^ n :=
    lt_of_le_of_lt (le_trans (le_max_left _ _) (le_max_right _ _)) hlt
  have hzl : v.z < 2 ^ n :=
    lt_of_le_of_lt (le_trans (le_max_right _ _) (le_max_right _ _)) hlt
  refine ⟨n + 1, fun j hj => ?_⟩
  have hp : (0 : ℚ) < 2 ^ j := by positivity
  have hjn : (2 : ℚ) ^ (n + 1) ≤ 2 ^ j := pow_le_pow_right₀ (by norm_num) hj
  have hhalf : ∀ a : ℚ, 0 ≤ a → a < 2 ^ n → 0 ≤ a / 2 ^ j ∧ a / 2 ^ j ≤ 1 / 2 := by
    intro a ha hal
    refine ⟨div_nonneg ha (le_of_lt hp), ?_⟩
    rw [div_le_iff₀ hp]
    rw [pow_succ] at hjn
    linarith
  have hcx := hhalf _ hx hxl
  have hcy := hhalf _ hy hyl
  have hcz := hhalf _ hz hzl
  have hB1 : (1 : ℚ) ≤ maxBlockByteSize := by exact_mod_cast hB
  have hprod : v.x / 2 ^ j * (v.y / 2 ^ j) * (v.z / 2 ^ j) ≤ 1 / 2 * (1 / 2) * (1 / 2) :=
    mul_le_mul (mul_le_mul hcx.2 hcy.2 hcy.1 (by norm_num)) hcz.2 hcz.1 (by norm_num)
  refine ⟨?_, ?_, ?_, ?_, fitsBlock_small _ _ hB hcx hcy hcz⟩
  · simp only [Vector3f.divScalar, Vector3f.product]
    linarith
  · simp only [Vector3f.divScalar]
    linarith [hcx.2]
  · simp only [Vector3f.divScalar]
    linarith [hcy.2]
  · simp only [Vector3f.divScalar]
    linarith [hcz.2]

/-- With a byte budget of 0 no non-negative candidate passes the exit
test. -/
theorem fitsBlock_zero_budget (v : Vector3f) (hx : 0 ≤ v.x) (hy : 0 ≤ v.y) (hz : 0 ≤ v.z) :
    fitsBlock 0 v = false := by
  have hb : FloatValue.ofRat ((0 : Nat) : ℚ) = .finite 0 := by decide!
  have hprod : (floatProduct v).lt (.finite 0) = false := by
    unfold floatProduct
    rcases FloatValue.ofRat_nonneg _ (mul_nonneg hx hy) with h1 | ⟨r, hr, h1⟩
    · rw [h1]
      simp only [FloatValue.mul]
      split_ifs with hpos hneg
      · rfl
      · exact absurd hz (not_le.mpr hneg)
      · rfl
    · rw [h1]
      simp only [FloatValue.mul]
      rcases FloatValue.ofRat_nonneg _ (mul_nonneg hr hz) with h2 | ⟨s, hs, h2⟩
      · rw [h2]
        rfl
      · rw [h2]
        simp only [FloatValue.lt, decide_eq_false_iff_not, not_lt]
        exact hs
  unfold fitsBlock
  rw [hb, hprod]
  rfl

/-- With a byte budget of 0 the loop never exits on a non-negative extent. -/
theorem halvingLoop_zero_budget (fuel : Nat) (v : Vector3f) (depth : Nat)
    (hx : 0 ≤ v.x) (hy : 0 ≤ v.y) (hz : 0 ≤ v.z) :
    halvingLoop 0 fuel v depth = none := by
  induction fuel generalizing v depth with
  | zero => rfl
  | succ fuel ih =>
    rw [halvingLoop, fitsBlock_zero_budget v hx hy hz]
    simp only [Bool.false_eq_true, if_false]
    apply ih
    · exact div_nonneg hx (by norm_num)
    · exact div_nonneg hy (by norm_num)
    · exact div_nonneg hz (by norm_num)

/-- More fuel does not change the result of an exit. -/
theorem halvingLoop_more_fuel (maxBlockByteSize fuel moreFuel : Nat) (v : Vector3f)
    (depth : Nat) (res : Vector3f × Nat)
    (h : halvingLoop maxBlockByteSize fuel v depth = some res) :
    halvingLoop maxBlockByteSize (fuel + moreFuel) v depth = some res := by
  induction fuel generalizing v depth with
  | zero => simp [halvingLoop] at h
  | succ fuel ih =>
    rw [Nat.add_right_comm, halvingLoop]
    rw [halvingLoop] at h
    by_cases hfit : fitsBlock maxBlockByteSize v = true
    · rw [if_pos hfit] at h ⊢
      exact h
    · rw [if_neg hfit] at h ⊢
      exact ih _ _ h

/-- C14: for every non-negative full-resolution extent and every
`maxBlockByteSize ≥ 1` the halving loop terminates: with enough fuel (and
with any more) it exits after finitely many halvings `d`, on a candidate
that passes the exit test; and there is a finite number of halvings from
which on the voxel product is below `maxBlockByteSize`, each component is
below 2048 and the exit test passes. The precondition on the budget is
needed: with the budget 0 the loop exits for no amount of fuel;
`getMaxBlockSize` gives 64 MiB when the key is absent and gives 0 for
`maxBlockSize=0`. -/
theorem halvingLoop_terminates (maxBlockByteSize : Nat) (fullResolution : Vector3f)
    (hx : 0 ≤ fullResolution.x) (hy : 0 ≤ fullResolution.y) (hz : 0 ≤ fullResolution.z)
    (hB : 1 ≤ maxBlockByteSize) :
    (∃ fuel blockResolution d,
      (∀ moreFuel, halvingLoop maxBlockByteSize (fuel + moreFuel) fullResolution 0
        = some (blockResolution, d)) ∧
      d < fuel ∧
      blockResolution = fullResolution.divScalar (2 ^ d) ∧
      (floatProduct blockResolution).lt (FloatValue.ofRat maxBlockByteSize) = true ∧
      blockResolution.x < 2048 ∧ blockResolution.y < 2048 ∧ blockResolution.z < 2048) ∧
    (∃ k, ∀ j, k ≤ j →
      (fullResolution.divScalar (2 ^ j)).product < maxBlockByteSize ∧
      (fullResolution.divScalar (2 ^ j)).x < 2048 ∧
      (fullResolution.divScalar (2 ^ j)).y < 2048 ∧
      (fullResolution.divScalar (2 ^ j)).z < 2048 ∧
      fitsBlock maxBlockByteSize (fullResolution.divScalar (2 ^ j)) = true) ∧
    (∀ fuel, halvingLoop 0 fuel fullResolution 0 = none) ∧
    (∀ (lexical_cast : String → Option Nat) (uri : URI),
      uri.findQuery "maxBlockSize" = none →
      URIHandler.getMaxBlockSize lexical_cast uri = .ok 67108864) ∧
    (∀ (lexical_cast : String → Option Nat) (uri : URI),
      uri.findQuery "maxBlockSize" = some "0" → lexical_cast "0" = some 0 →
      URIHandler.getMaxBlockSize lexical_cast uri = .ok 0) := by
  have hex := exists_halvings_fit maxBlockByteSize fullResolution hx hy hz hB
  refine ⟨?_, hex, fun fuel => halvingLoop_zero_budget fuel _ _ hx hy hz, ?_, ?_⟩
  · obtain ⟨k, hk⟩ := hex
    have hfitk := (hk k le_rfl).2.2.2.2
    obtain ⟨⟨br, d⟩, hres⟩ :=
      halvingLoop_exits maxBlockByteSize k (k + 1) fullResolution 0 hfitk (by omega)
    obtain ⟨n, hd, hb, hf, hmin⟩ := halvingLoop_some _ _ _ _ _ hres
    simp only [Nat.zero_add] at hd hb
    subst hd
    have hfit := (fitsBlock_iff _ _).mp hf
    have hdk : d ≤ k := by
      by_contra hlt
      have hfalse := hmin k (by omega)
      rw [hfitk] at hfalse
      exact Bool.noConfusion hfalse
    exact ⟨k + 1, br, d, fun moreFuel => halvingLoop_more_fuel _ _ _ _ _ _ hres, by omega, hb,
      hfit.1, hfit.2.1, hfit.2.2.1, hfit.2.2.2⟩
  · intro lc uri h
    simp [URIHandler.getMaxBlockSize, URIHandler._get, URIHandler._getString, h, _maxBlockSize]
  · intro lc uri h h0
    simp [URIHandler.getMaxBlockSize, URIHandler._get, URIHandler._getString, h, h0]

/-- Witness for C14: the loop terminates from 1000 voxels on every axis with
the budget of 64 MiB. -/
theorem halvingLoop_terminates_witness :
    ∃ fuel blockResolution d,
      (∀ moreFuel, halvingLoop 67108864 (fuel + moreFuel) ⟨1000, 1000, 1000⟩ 0
        = some (blockResolution, d)) ∧
      d < fuel ∧
      blockResolution = (⟨1000, 1000, 1000⟩ : Vector3f).divScalar (2 ^ d) ∧
      (floatProduct blockResolution).lt (FloatValue.ofRat ((67108864 : Nat) : ℚ)) = true ∧
      blockResolution.x < 2048 ∧ blockResolution.y < 2048 ∧ blockResolution.z < 2048 :=
  (halvingLoop_terminates 67108864 ⟨1000, 1000, 1000⟩ (by norm_num) (by norm_num)
    (by norm_num) (by norm_num)).1

/-! ## URI parameters -/

/-- The volume type is `synapses` exactly for the scheme `fivoxsynapses`. -/
theorem getType_synapses_iff (uri : URI) :
    URIHandler.getType uri = .synapses ↔ uri.scheme = "fivoxsynapses" := by
  unfold URIHandler.getType
  constructor
  · intro h
    split_ifs at h
    assumption
  · intro h
    rw [h]
    decide

/-- The functor type is `density` exactly when `functor=density`, or when
`functor` is none of the four names and the scheme is `fivoxsynapses`. -/
theorem getFunctorType_density_iff (uri : URI) :
    URIHandler.getFunctorType uri = .density ↔
      (URIHandler._getString uri "functor" = "density" ∨
        (URIHandler._getString uri "functor" ≠ "density" ∧
         URIHandler._getString uri "functor" ≠ "field" ∧
         URIHandler._getString uri "functor" ≠ "frequency" ∧
         URIHandler._getString uri "functor" ≠ "lfp" ∧
         uri.scheme = "fivoxsynapses")) := by
  rw [← getType_synapses_iff]
  unfold URIHandler.getFunctorType
  simp only
  by_cases h1 : URIHandler._getString uri "functor" = "density"
  · simp [h1]
  · by_cases h2 : URIHandler._getString uri "functor" = "lfp"
    · simp [h2]
    · by_cases h3 : URIHandler._getString uri "functor" = "field"
      · simp [h3]
      · by_cases h4 : URIHandler._getString uri "functor" = "frequency"
        · simp [h4]
        · simp only [if_neg h1, if_neg h2, if_neg h3, if_neg h4]
          cases hT : URIHandler.getType uri <;> simp [h1, h2, h3, h4]

/-- C13: for a URI with no `resolution` query key, `getResolution` returns
`0.0625` when the selected variant is density and `1.0` in every other
case; the variant is density exactly when `functor=density`, or when
`functor` is none of density, field, frequency, lfp and the scheme is
`fivoxsynapses`; and when `functor` is one of the four names the variant is
that one, whatever the scheme. -/
theorem resolution_default (lexical_cast : String → Option ℚ) (uri : URI)
    (hres : uri.findQuery "resolution" = none) :
    (URIHandler.getFunctorType uri = .density →
        URIHandler.getResolution lexical_cast uri = .ok (1 / 16)) ∧
      (URIHandler.getFunctorType uri ≠ .density →
        URIHandler.getResolution lexical_cast uri = .ok 1) ∧
      (URIHandler.getFunctorType uri = .density ↔
        (URIHandler._getString uri "functor" = "density" ∨
          (URIHandler._getString uri "functor" ≠ "density" ∧
           URIHandler._getString uri "functor" ≠ "field" ∧
           URIHandler._getString uri "functor" ≠ "frequency" ∧
           URIHandler._getString uri "functor" ≠ "lfp" ∧
           uri.scheme = "fivoxsynapses"))) ∧
      (URIHandler._getString uri "functor" = "density" →
        URIHandler.getFunctorType uri = .density) ∧
      (URIHandler._getString uri "functor" = "field" →
        URIHandler.getFunctorType uri = .field) ∧
      (URIHandler._getString uri "functor" = "frequency" →
        URIHandler.getFunctorType uri = .frequency) ∧
      (URIHandler._getString uri "functor" = "lfp" →
        URIHandler.getFunctorType uri = .lfp) := by
  have hget : ∀ d : ℚ, URIHandler._get lexical_cast uri "resolution" d = .ok d := by
    intro d
    simp [URIHandler._get, URIHandler._getString, hres]
  refine ⟨?_, ?_, getFunctorType_density_iff uri, ?_, ?_, ?_, ?_⟩
  · intro h
    rw [URIHandler.getResolution, hget, if_pos h]
  · intro h
    rw [URIHandler.getResolution, hget, if_neg h, _resolution]
  · intro h
    simp [URIHandler.getFunctorType, h]
  · intro h
    simp [URIHandler.getFunctorType, h]
  · intro h
    simp [URIHandler.getFunctorType, h]
  · intro h
    simp [URIHandler.getFunctorType, h]

/-- Witness for C13: the scheme `fivoxsynapses` with an empty query gives
the resolution `0.0625`. -/
theorem resolution_default_witness :
    URIHandler.getResolution lexicalCastDigit (URI.ofPairs "fivoxsynapses" []) = .ok (1 / 16) :=
  (resolution_default lexicalCastDigit (URI.ofPairs "fivoxsynapses" []) rfl).1
    (by decide)

/-- C12, as stated, fails: for the query `target=` (key present, empty
value) the typed `_get` on `std::string` returns the default `"mini50"`,
although the empty value parses as a string, to the empty string. -/
theorem get_string_empty_value_is_default :
    (URI.ofPairs "fivox" [("target", "")]).findQuery "target" = some "" ∧
      lexicalCastString "" = some "" ∧
      URIHandler._get lexicalCastString (URI.ofPairs "fivox" [("target", "")]) "target"
        "mini50" = .ok "mini50" ∧
      ("mini50" : String) ≠ "" := by
  refine ⟨rfl, rfl, ?_, by decide⟩
  simp [URIHandler._get, URIHandler._getString, URI.ofPairs, List.lookup]

/-- C12, amended: the typed `_get` returns the default when the key is absent
or present with an empty value, the parsed value when the non-empty value
parses as the requested type, and the default when parsing fails, and never
raises; the `bool` specialization returns the default when the key is
absent, true when the key is present with an empty value, the parsed value
when the non-empty value parses and the default when it does not, and never
raises; so `showProgress` is false when absent and true on bare presence. -/
theorem get_typed {T : Type} (lexical_cast : String → Option T)
    (boolCast : String → Option Bool) (uri : URI) (param : String) (defaultValue : T)
    (defaultBool : Bool) :
    (uri.findQuery param = none →
        URIHandler._get lexical_cast uri param defaultValue = .ok defaultValue) ∧
      (uri.findQuery param = some "" →
        URIHandler._get lexical_cast uri param defaultValue = .ok defaultValue) ∧
      (∀ value parsed, uri.findQuery param = some value → value ≠ "" →
        lexical_cast value = some parsed →
        URIHandler._get lexical_cast uri param defaultValue = .ok parsed) ∧
      (∀ value, uri.findQuery param = some value → lexical_cast value = none →
        URIHandler._get lexical_cast uri param defaultValue = .ok defaultValue) ∧
      (∃ v, URIHandler._get lexical_cast uri param defaultValue = .ok v) ∧
      (uri.findQuery param = none →
        URIHandler._getBool boolCast uri param defaultBool = .ok defaultBool) ∧
      (uri.findQuery param = some "" →
        URIHandler._getBool boolCast uri param defaultBool = .ok true) ∧
      (∀ value parsed, uri.findQuery param = some value → value ≠ "" →
        boolCast value = some parsed →
        URIHandler._getBool boolCast uri param defaultBool = .ok parsed) ∧
      (∀ value, uri.findQuery param = some value → value ≠ "" → boolCast value = none →
        URIHandler._getBool boolCast uri param defaultBool = .ok defaultBool) ∧
      (∃ v, URIHandler._getBool boolCast uri param defaultBool = .ok v) ∧
      (uri.findQuery "showProgress" = none →
        URIHandler.showProgress boolCast uri = .ok false) ∧
      (uri.findQuery "showProgress" = some "" →
        URIHandler.showProgress boolCast uri = .ok true) := by
  refine ⟨?_, ?_, ?_, ?_, ?_, ?_, ?_, ?_, ?_, ?_, ?_, ?_⟩
  · intro h
    simp [URIHandler._get, URIHandler._getString, h]
  · intro h
    simp [URIHandler._get, URIHandler._getString, h]
  · intro value parsed h hne hp
    simp [URIHandler._get, URIHandler._getString, h, hne, hp]
  · intro value h hp
    by_cases hne : value = ""
    · simp [URIHandler._get, URIHandler._getString, h, hne]
    · simp [URIHandler._get, URIHandler._getString, h, hne, hp]
  · unfold URIHandler._get
    simp only
    split
    · exact ⟨_, rfl⟩
    · split <;> exact ⟨_, rfl⟩
  · intro h
    simp [URIHandler._getBool, h]
  · intro h
    simp [URIHandler._getBool, h]
  · intro value parsed h hne hp
    simp [URIHandler._getBool, h, hne, hp]
  · intro value h hne hp
    simp [URIHandler._getBool, h, hne, hp]
  · unfold URIHandler._getBool
    split
    · exact ⟨_, rfl⟩
    · split
      · exact ⟨_, rfl⟩
      · split <;> exact ⟨_, rfl⟩
  · intro h
    simp [URIHandler.showProgress, URIHandler._getBool, h]
  · intro h
    simp [URIHandler.showProgress, URIHandler._getBool, h]

/-- Witness for C12: the bare key `showProgress` gives true, and the
unparseable `maxBlockSize=abc` gives the default. -/
theorem get_typed_witness :
    URIHandler.showProgress lexicalCastBool
        (URI.ofPairs "fivox" [("showProgress", "")]) = .ok true ∧
      URIHandler._get (lexicalCastDigit : String → Option Nat)
        (URI.ofPairs "fivox" [("maxBlockSize", "abc")]) "maxBlockSize" 67108864
          = .ok 67108864 :=
  ⟨(get_typed (lexicalCastDigit : String → Option Nat) lexicalCastBool
      (URI.ofPairs "fivox" [("showProgress", "")]) "showProgress" 0 false).2.2.2.2.2.2.2.2.2.2.2
      rfl,
   (get_typed (lexicalCastDigit : String → Option Nat) lexicalCastBool
      (URI.ofPairs "fivox" [("maxBlockSize", "abc")]) "maxBlockSize" 67108864
      false).2.2.2.1 "abc" (by decide) (by decide)⟩

end Fivox
